import Mathlib

/-!
Verification development for the vsnake terminal Snake game (src/snake.cpp).

The C++ source is shallowly embedded: `int` / `long long` values become `ℤ`
(with truncated division `Int.tdiv` where the C++ `/` appears on possibly
negative operands), the single `float` multiplication by `VERT_SPEED_FACTOR`
is modelled exactly as IEEE-754 single-precision round-to-nearest-even
arithmetic over `ℚ`, the snake `std::deque` becomes a `List` (front = head),
and the C library `rand()` becomes an arbitrary stream `ℕ → ℕ` of
non-negative values, universally quantified in every theorem.
-/

-- ─── Board constants (snake.cpp lines 46-68) ────────────────

def BOARD_WIDTH : ℤ := 40
def BOARD_HEIGHT : ℤ := 20
def MIN_TERM_W : ℤ := BOARD_WIDTH * 2 + 10
def MIN_TERM_H : ℤ := BOARD_HEIGHT + 6
def APPLE_MAX_TRIES : ℕ := 1000
def BASE_MOVE_US : ℤ := 120000
def MIN_MOVE_US : ℤ := 60000
def SPEED_SCORE_STEP : ℤ := 50
def SPEED_REDUCE_US : ℤ := 5000
def APPLE_BLINK_HALF : ℕ := 16
def HEAD_GLOW_PERIOD : ℕ := 10
def APPLE_SPARKLE_RATE : ℕ := 12
def FLASH_DURATION : ℤ := 24

-- ─── Direction (snake.cpp lines 75-81) ──────────────────────

inductive Direction where
  | UP
  | DOWN
  | LEFT
  | RIGHT
deriving DecidableEq

/-- snake.cpp lines 77-80: `isOpposite`. -/
def isOpposite (a b : Direction) : Bool :=
  (a = Direction.UP ∧ b = Direction.DOWN) ∨ (a = Direction.DOWN ∧ b = Direction.UP) ∨
  (a = Direction.LEFT ∧ b = Direction.RIGHT) ∨ (a = Direction.RIGHT ∧ b = Direction.LEFT)

/-- snake.cpp line 81: `isVertical`. -/
def isVertical (d : Direction) : Bool :=
  d = Direction.UP ∨ d = Direction.DOWN

/-- snake.cpp lines 83-86: `Point`, equality is componentwise. -/
structure Point where
  x : ℤ
  y : ℤ
deriving DecidableEq

-- ─── Exact model of the one float computation ───────────────

/-- Round a rational to an integer, ties to even (IEEE-754 default rounding
to integral grid). -/
def rne (x : ℚ) : ℤ :=
  if x - ⌊x⌋ < 1/2 then ⌊x⌋
  else if 1/2 < x - ⌊x⌋ then ⌊x⌋ + 1
  else if Even ⌊x⌋ then ⌊x⌋ else ⌊x⌋ + 1

/-- Number of significant bits of `⌊q⌋` (valid for `1 ≤ q`). -/
def sigBits (q : ℚ) : ℤ := (Nat.size ⌊q⌋.toNat : ℤ)

/-- Round a rational `q ≥ 1` to 24 significant bits, nearest, ties to even:
the value a binary-32 float holds for `q` (exponent range is never exceeded
by the program's values). -/
def round24 (q : ℚ) : ℚ :=
  (rne (q * 2 ^ (24 - sigBits q)) : ℚ) * 2 ^ (sigBits q - 24)

/-- C++ cast of a non-negative rational to an integer type truncates toward
zero. -/
def ratTrunc (q : ℚ) : ℤ := if q < 0 then -⌊-q⌋ else ⌊q⌋

/-- Conversion `long long → float` (round to nearest even). -/
def floatOfInt (n : ℤ) : ℚ := round24 (n : ℚ)

/-- snake.cpp line 62: `VERT_SPEED_FACTOR = 1.2f`.  The binary-32 literal
`1.2f` is exactly `10066330 * 2^-23 = 5033165/4194304`. -/
def VERT_SPEED_FACTOR : ℚ := 5033165 / 4194304

/-- snake.cpp line 268: `(long long)(iv * VERT_SPEED_FACTOR)` — the operand
`iv` is converted to `float`, multiplied in `float`, and truncated back. -/
def vertScale (iv : ℤ) : ℤ :=
  ratTrunc (round24 (floatOfInt iv * VERT_SPEED_FACTOR))

/-- snake.cpp lines 260-264: `calcBaseInterval` (C++ `/` on `int` truncates
toward zero, hence `Int.tdiv`). -/
def calcBaseInterval (score : ℤ) : ℤ :=
  let steps := Int.tdiv score SPEED_SCORE_STEP
  let iv := BASE_MOVE_US - steps * SPEED_REDUCE_US
  if iv < MIN_MOVE_US then MIN_MOVE_US else iv

/-- snake.cpp lines 266-270: `calcMoveInterval`. -/
def calcMoveInterval (score : ℤ) (d : Direction) : ℤ :=
  let iv := calcBaseInterval score
  if isVertical d then vertScale iv else iv

-- ─── Facts about the float model ────────────────────────────

theorem rne_ge_floor (x : ℚ) : ⌊x⌋ ≤ rne x := by
  unfold rne; split_ifs <;> omega

theorem rne_le_floor_add_one (x : ℚ) : rne x ≤ ⌊x⌋ + 1 := by
  unfold rne; split_ifs <;> omega

theorem rne_ge (x : ℚ) : x - 1/2 ≤ (rne x : ℚ) := by
  have hfl : (⌊x⌋ : ℚ) ≤ x := Int.floor_le x
  have hfl2 : x < ⌊x⌋ + 1 := Int.lt_floor_add_one x
  unfold rne; split_ifs <;> push_cast <;> linarith

theorem rne_le (x : ℚ) : (rne x : ℚ) ≤ x + 1/2 := by
  have hfl : (⌊x⌋ : ℚ) ≤ x := Int.floor_le x
  have hfl2 : x < ⌊x⌋ + 1 := Int.lt_floor_add_one x
  unfold rne; split_ifs <;> push_cast <;> linarith

theorem rne_mono {x y : ℚ} (h : x ≤ y) : rne x ≤ rne y := by
  have hf : ⌊x⌋ ≤ ⌊y⌋ := Int.floor_le_floor h
  rcases lt_or_eq_of_le hf with hlt | heq
  · calc rne x ≤ ⌊x⌋ + 1 := rne_le_floor_add_one x
      _ ≤ ⌊y⌋ := by omega
      _ ≤ rne y := rne_ge_floor y
  · have hx : (⌊x⌋ : ℚ) ≤ x := Int.floor_le x
    have hy : (⌊y⌋ : ℚ) ≤ y := Int.floor_le y
    unfold rne
    rw [← heq]
    split_ifs <;> try omega
    all_goals (exfalso; rw [← heq] at *; linarith)

theorem rne_intCast (n : ℤ) : rne (n : ℚ) = n := by
  unfold rne
  rw [Int.floor_intCast]
  have h0 : (n : ℚ) - n = 0 := by ring
  rw [h0]
  norm_num

theorem floor_nonneg_of_one_le {q : ℚ} (hq : 1 ≤ q) : 1 ≤ ⌊q⌋ := by
  rw [Int.le_floor]; exact_mod_cast hq

theorem sigBits_pos {q : ℚ} (hq : 1 ≤ q) : 1 ≤ sigBits q := by
  unfold sigBits
  have h1 : 1 ≤ ⌊q⌋ := floor_nonneg_of_one_le hq
  have h2 : 1 ≤ ⌊q⌋.toNat := by omega
  have h3 : ⌊q⌋.toNat ≠ 0 := by omega
  have h4 : Nat.size ⌊q⌋.toNat ≠ 0 := by
    intro h
    exact h3 (Nat.size_eq_zero.mp h)
  omega

theorem two_zpow_sigBits_sub_one_le {q : ℚ} (hq : 1 ≤ q) :
    (2:ℚ) ^ (sigBits q - 1) ≤ q := by
  have h1 : 1 ≤ ⌊q⌋ := floor_nonneg_of_one_le hq
  have hsz : 1 ≤ Nat.size ⌊q⌋.toNat := by
    have := sigBits_pos hq; unfold sigBits at this; omega
  have hlow : 2 ^ (Nat.size ⌊q⌋.toNat - 1) ≤ ⌊q⌋.toNat :=
    Nat.lt_size.mp (by omega)
  have hexp : sigBits q - 1 = ((Nat.size ⌊q⌋.toNat - 1 : ℕ) : ℤ) := by
    unfold sigBits; omega
  rw [hexp, zpow_natCast]
  have hcast : ((2 ^ (Nat.size ⌊q⌋.toNat - 1) : ℕ) : ℚ) ≤ ((⌊q⌋.toNat : ℕ) : ℚ) := by
    exact_mod_cast hlow
  have hflq : ((⌊q⌋.toNat : ℕ) : ℚ) ≤ q := by
    have h0 : (⌊q⌋.toNat : ℤ) = ⌊q⌋ := Int.toNat_of_nonneg (by omega)
    have h2 : (⌊q⌋ : ℚ) ≤ q := Int.floor_le q
    rw [← h0] at h2
    exact_mod_cast h2
  calc (2:ℚ) ^ (Nat.size ⌊q⌋.toNat - 1) = ((2 ^ (Nat.size ⌊q⌋.toNat - 1) : ℕ) : ℚ) := by
        push_cast; ring
    _ ≤ q := le_trans hcast hflq

theorem lt_two_zpow_sigBits {q : ℚ} (hq : 1 ≤ q) :
    q < (2:ℚ) ^ (sigBits q) := by
  have h1 : 1 ≤ ⌊q⌋ := floor_nonneg_of_one_le hq
  have hup : ⌊q⌋.toNat < 2 ^ (Nat.size ⌊q⌋.toNat) := Nat.lt_size_self _
  have hexp : sigBits q = ((Nat.size ⌊q⌋.toNat : ℕ) : ℤ) := by unfold sigBits; omega
  rw [hexp, zpow_natCast]
  have hql : q < (⌊q⌋ : ℚ) + 1 := Int.lt_floor_add_one q
  have h0 : (⌊q⌋.toNat : ℤ) = ⌊q⌋ := Int.toNat_of_nonneg (by omega)
  have hcast : ((⌊q⌋.toNat : ℕ) : ℚ) + 1 ≤ ((2 ^ (Nat.size ⌊q⌋.toNat) : ℕ) : ℚ) := by
    exact_mod_cast hup
  have : (⌊q⌋ : ℚ) + 1 ≤ ((2 ^ (Nat.size ⌊q⌋.toNat) : ℕ) : ℚ) := by
    rw [← h0]; exact_mod_cast hcast
  calc q < (⌊q⌋ : ℚ) + 1 := hql
    _ ≤ ((2 ^ (Nat.size ⌊q⌋.toNat) : ℕ) : ℚ) := this
    _ = (2:ℚ) ^ (Nat.size ⌊q⌋.toNat) := by push_cast; ring

theorem round24_sub_q (q : ℚ) :
    round24 q - q = ((rne (q * 2 ^ (24 - sigBits q)) : ℚ) - q * 2 ^ (24 - sigBits q)) *
      2 ^ (sigBits q - 24) := by
  unfold round24
  have hcancel : q * 2 ^ (24 - sigBits q) * (2:ℚ) ^ (sigBits q - 24) = q := by
    rw [mul_assoc, ← zpow_add₀ (two_ne_zero : (2:ℚ) ≠ 0)]
    norm_num
  rw [sub_mul, hcancel]

theorem abs_round24_sub_le {q : ℚ} (hq : 1 ≤ q) :
    |round24 q - q| ≤ q * (1 / 2 ^ 24) := by
  have hrg := rne_ge (q * 2 ^ (24 - sigBits q))
  have hrl := rne_le (q * 2 ^ (24 - sigBits q))
  have habs : |(rne (q * 2 ^ (24 - sigBits q)) : ℚ) - q * 2 ^ (24 - sigBits q)| ≤ 1/2 := by
    rw [abs_le]; constructor <;> linarith
  have hpow : (0:ℚ) < 2 ^ (sigBits q - 24) := zpow_pos (by norm_num) _
  rw [round24_sub_q, abs_mul, abs_of_pos hpow]
  have step1 : |(rne (q * 2 ^ (24 - sigBits q)) : ℚ) - q * 2 ^ (24 - sigBits q)| *
      2 ^ (sigBits q - 24) ≤ (1/2) * 2 ^ (sigBits q - 24) :=
    mul_le_mul_of_nonneg_right habs (le_of_lt hpow)
  have step2 : (1/2 : ℚ) * 2 ^ (sigBits q - 24) = 2 ^ (sigBits q - 1) * (1 / 2 ^ 24) := by
    rw [show (1 / 2 ^ 24 : ℚ) = (2:ℚ) ^ (-24 : ℤ) by norm_num]
    rw [← zpow_add₀ (two_ne_zero : (2:ℚ) ≠ 0)]
    rw [show (1/2 : ℚ) = (2:ℚ) ^ (-1 : ℤ) by norm_num]
    rw [← zpow_add₀ (two_ne_zero : (2:ℚ) ≠ 0)]
    congr 1
    ring
  have step3 : (2:ℚ) ^ (sigBits q - 1) * (1 / 2 ^ 24) ≤ q * (1 / 2 ^ 24) := by
    apply mul_le_mul_of_nonneg_right (two_zpow_sigBits_sub_one_le hq)
    positivity
  linarith

theorem round24_ge {q : ℚ} (hq : 1 ≤ q) : q * (1 - 1/2^24) ≤ round24 q := by
  have h := abs_round24_sub_le hq
  rw [abs_le] at h
  nlinarith [h.1]

theorem round24_le {q : ℚ} (hq : 1 ≤ q) : round24 q ≤ q * (1 + 1/2^24) := by
  have h := abs_round24_sub_le hq
  rw [abs_le] at h
  nlinarith [h.2]

theorem round24_pos {q : ℚ} (hq : 1 ≤ q) : 0 < round24 q := by
  have h := round24_ge hq
  nlinarith

theorem round24_le_two_zpow {q : ℚ} (hq : 1 ≤ q) :
    round24 q ≤ (2:ℚ) ^ sigBits q := by
  have hpow : (0:ℚ) < 2 ^ (24 - sigBits q) := zpow_pos (by norm_num) _
  have hxlt : q * 2 ^ (24 - sigBits q) < ((16777216 : ℤ) : ℚ) := by
    calc q * 2 ^ (24 - sigBits q) < 2 ^ sigBits q * 2 ^ (24 - sigBits q) :=
          mul_lt_mul_of_pos_right (lt_two_zpow_sigBits hq) hpow
      _ = (2:ℚ) ^ (24 : ℤ) := by
          rw [← zpow_add₀ (two_ne_zero : (2:ℚ) ≠ 0)]; congr 1; ring
      _ = ((16777216 : ℤ) : ℚ) := by norm_num
  have hfl : ⌊q * 2 ^ (24 - sigBits q)⌋ < 16777216 := Int.floor_lt.mpr hxlt
  have hrne : rne (q * 2 ^ (24 - sigBits q)) ≤ 16777216 :=
    le_trans (rne_le_floor_add_one _) (by omega)
  have hrneQ : (rne (q * 2 ^ (24 - sigBits q)) : ℚ) ≤ ((16777216 : ℤ) : ℚ) := by
    exact_mod_cast hrne
  have hpow2 : (0:ℚ) < 2 ^ (sigBits q - 24) := zpow_pos (by norm_num) _
  unfold round24
  calc (rne (q * 2 ^ (24 - sigBits q)) : ℚ) * 2 ^ (sigBits q - 24)
      ≤ ((16777216 : ℤ) : ℚ) * 2 ^ (sigBits q - 24) :=
        mul_le_mul_of_nonneg_right hrneQ (le_of_lt hpow2)
    _ = (2:ℚ) ^ (24 : ℤ) * 2 ^ (sigBits q - 24) := by norm_num
    _ = (2:ℚ) ^ sigBits q := by
        rw [← zpow_add₀ (two_ne_zero : (2:ℚ) ≠ 0)]; congr 1; ring

theorem two_zpow_sub_one_le_round24 {q : ℚ} (hq : 1 ≤ q) :
    (2:ℚ) ^ (sigBits q - 1) ≤ round24 q := by
  have hpow : (0:ℚ) < 2 ^ (24 - sigBits q) := zpow_pos (by norm_num) _
  have hxge : ((8388608 : ℤ) : ℚ) ≤ q * 2 ^ (24 - sigBits q) := by
    calc ((8388608 : ℤ) : ℚ) = (2:ℚ) ^ (23 : ℤ) := by norm_num
      _ = 2 ^ (sigBits q - 1) * 2 ^ (24 - sigBits q) := by
          rw [← zpow_add₀ (two_ne_zero : (2:ℚ) ≠ 0)]; congr 1; ring
      _ ≤ q * 2 ^ (24 - sigBits q) :=
          mul_le_mul_of_nonneg_right (two_zpow_sigBits_sub_one_le hq) (le_of_lt hpow)
  have hfl : 8388608 ≤ ⌊q * 2 ^ (24 - sigBits q)⌋ := Int.le_floor.mpr hxge
  have hrne : 8388608 ≤ rne (q * 2 ^ (24 - sigBits q)) :=
    le_trans (by omega) (rne_ge_floor _)
  have hrneQ : ((8388608 : ℤ) : ℚ) ≤ (rne (q * 2 ^ (24 - sigBits q)) : ℚ) := by
    exact_mod_cast hrne
  have hpow2 : (0:ℚ) < 2 ^ (sigBits q - 24) := zpow_pos (by norm_num) _
  unfold round24
  calc (2:ℚ) ^ (sigBits q - 1) = (2:ℚ) ^ (23 : ℤ) * 2 ^ (sigBits q - 24) := by
        rw [← zpow_add₀ (two_ne_zero : (2:ℚ) ≠ 0)]; congr 1; ring
    _ = ((8388608 : ℤ) : ℚ) * 2 ^ (sigBits q - 24) := by norm_num
    _ ≤ (rne (q * 2 ^ (24 - sigBits q)) : ℚ) * 2 ^ (sigBits q - 24) :=
        mul_le_mul_of_nonneg_right hrneQ (le_of_lt hpow2)

theorem round24_mono {x y : ℚ} (hx : 1 ≤ x) (hxy : x ≤ y) :
    round24 x ≤ round24 y := by
  have hy : 1 ≤ y := le_trans hx hxy
  have hfl : ⌊x⌋ ≤ ⌊y⌋ := Int.floor_le_floor hxy
  have hb : sigBits x ≤ sigBits y := by
    unfold sigBits
    have := Nat.size_le_size (show ⌊x⌋.toNat ≤ ⌊y⌋.toNat by omega)
    omega
  rcases eq_or_lt_of_le hb with heq | hlt
  · unfold round24
    rw [← heq]
    have hpow : (0:ℚ) < 2 ^ (24 - sigBits x) := zpow_pos (by norm_num) _
    have hxx : x * 2 ^ (24 - sigBits x) ≤ y * 2 ^ (24 - sigBits x) :=
      mul_le_mul_of_nonneg_right hxy (le_of_lt hpow)
    have hr := rne_mono hxx
    have hrQ : (rne (x * 2 ^ (24 - sigBits x)) : ℚ) ≤ (rne (y * 2 ^ (24 - sigBits x)) : ℚ) := by
      exact_mod_cast hr
    exact mul_le_mul_of_nonneg_right hrQ (le_of_lt (zpow_pos (by norm_num) _))
  · calc round24 x ≤ (2:ℚ) ^ sigBits x := round24_le_two_zpow hx
      _ ≤ (2:ℚ) ^ (sigBits y - 1) := by
          apply zpow_le_zpow_right₀ (by norm_num)
          omega
      _ ≤ round24 y := two_zpow_sub_one_le_round24 hy

theorem tdiv_le_tdiv {a b c : ℤ} (hc : 0 < c) (h : a ≤ b) :
    Int.tdiv a c ≤ Int.tdiv b c := by
  rcases le_or_lt 0 a with ha | ha
  · rw [Int.tdiv_eq_ediv ha (le_of_lt hc), Int.tdiv_eq_ediv (le_trans ha h) (le_of_lt hc)]
    exact Int.ediv_le_ediv hc h
  · rcases le_or_lt 0 b with hb | hb
    · have h1 : 0 ≤ Int.tdiv (-a) c := Int.tdiv_nonneg (by omega) (by omega)
      have h2 : Int.tdiv (-a) c = -(Int.tdiv a c) := Int.neg_tdiv a c
      have h3 : 0 ≤ Int.tdiv b c := Int.tdiv_nonneg hb (by omega)
      omega
    · have e1 : Int.tdiv (-a) c = -(Int.tdiv a c) := Int.neg_tdiv a c
      have e2 : Int.tdiv (-b) c = -(Int.tdiv b c) := Int.neg_tdiv b c
      have e3 : Int.tdiv (-a) c = Int.ediv (-a) c :=
        Int.tdiv_eq_ediv (by omega) (le_of_lt hc)
      have e4 : Int.tdiv (-b) c = Int.ediv (-b) c :=
        Int.tdiv_eq_ediv (by omega) (le_of_lt hc)
      have e5 : Int.ediv (-b) c ≤ Int.ediv (-a) c := Int.ediv_le_ediv hc (by omega)
      omega

theorem calcBaseInterval_ge (s : ℤ) : MIN_MOVE_US ≤ calcBaseInterval s := by
  simp only [calcBaseInterval]
  split_ifs <;> omega

theorem calcBaseInterval_antitone {s1 s2 : ℤ} (h : s1 ≤ s2) :
    calcBaseInterval s2 ≤ calcBaseInterval s1 := by
  simp only [calcBaseInterval]
  have hd := tdiv_le_tdiv (show (0:ℤ) < SPEED_SCORE_STEP by norm_num [SPEED_SCORE_STEP]) h
  simp only [BASE_MOVE_US, MIN_MOVE_US, SPEED_REDUCE_US]
  split_ifs <;> omega

theorem one_le_floatMul {iv : ℤ} (h : 1 ≤ iv) :
    1 ≤ floatOfInt iv * VERT_SPEED_FACTOR := by
  have hq : (1:ℚ) ≤ (iv : ℚ) := by exact_mod_cast h
  have hf := round24_ge hq
  have hVF : (0:ℚ) < VERT_SPEED_FACTOR := by norm_num [VERT_SPEED_FACTOR]
  have c1 : (iv:ℚ) * (1 - 1/2^24) * VERT_SPEED_FACTOR ≤ floatOfInt iv * VERT_SPEED_FACTOR := by
    unfold floatOfInt
    exact mul_le_mul_of_nonneg_right hf (le_of_lt hVF)
  have c2 : (1:ℚ) * ((1 - 1/2^24) * VERT_SPEED_FACTOR) ≤
      (iv:ℚ) * ((1 - 1/2^24) * VERT_SPEED_FACTOR) := by
    apply mul_le_mul_of_nonneg_right hq
    norm_num [VERT_SPEED_FACTOR]
  have c3 : (1:ℚ) ≤ 1 * ((1 - 1/2^24) * VERT_SPEED_FACTOR) := by
    norm_num [VERT_SPEED_FACTOR]
  ring_nf at c1 c2 c3 ⊢
  linarith

theorem vertScale_ge {iv : ℤ} (h : 1 ≤ iv) : iv ≤ vertScale iv := by
  have hq : (1:ℚ) ≤ (iv : ℚ) := by exact_mod_cast h
  have hf := round24_ge hq
  have hp1 := one_le_floatMul h
  have hr := round24_ge hp1
  have hrpos := round24_pos hp1
  have hVF : (0:ℚ) < VERT_SPEED_FACTOR := by norm_num [VERT_SPEED_FACTOR]
  have hεpos : (0:ℚ) < 1 - 1/2^24 := by norm_num
  have c1 : (iv:ℚ) * (1 - 1/2^24) * VERT_SPEED_FACTOR ≤ floatOfInt iv * VERT_SPEED_FACTOR := by
    unfold floatOfInt
    exact mul_le_mul_of_nonneg_right hf (le_of_lt hVF)
  have c1b := mul_le_mul_of_nonneg_right c1 (le_of_lt hεpos)
  have c4 : (iv:ℚ) ≤ (iv:ℚ) * ((1 - 1/2^24) * VERT_SPEED_FACTOR * (1 - 1/2^24)) := by
    apply le_mul_of_one_le_right (by linarith)
    norm_num [VERT_SPEED_FACTOR]
  unfold vertScale
  unfold ratTrunc
  rw [if_neg (by linarith)]
  rw [Int.le_floor]
  ring_nf at c1b c4 hr ⊢
  linarith

theorem vertScale_mono {a b : ℤ} (ha : 1 ≤ a) (hab : a ≤ b) :
    vertScale a ≤ vertScale b := by
  have hb : 1 ≤ b := le_trans ha hab
  have hqa : (1:ℚ) ≤ (a : ℚ) := by exact_mod_cast ha
  have hqab : (a:ℚ) ≤ (b:ℚ) := by exact_mod_cast hab
  have hVF : (0:ℚ) < VERT_SPEED_FACTOR := by norm_num [VERT_SPEED_FACTOR]
  have hfm : floatOfInt a ≤ floatOfInt b := round24_mono hqa hqab
  have hpm : floatOfInt a * VERT_SPEED_FACTOR ≤ floatOfInt b * VERT_SPEED_FACTOR :=
    mul_le_mul_of_nonneg_right hfm (le_of_lt hVF)
  have hp1 := one_le_floatMul ha
  have hrm := round24_mono hp1 hpm
  have hra := round24_pos hp1
  have hrb := round24_pos (le_trans hp1 hpm)
  unfold vertScale ratTrunc
  rw [if_neg (by linarith), if_neg (by linarith)]
  exact Int.floor_le_floor hrm

theorem calcBaseInterval_one_le (s : ℤ) : 1 ≤ calcBaseInterval s := by
  have := calcBaseInterval_ge s
  simp only [MIN_MOVE_US] at this
  omega

theorem calcMoveInterval_ge (s : ℤ) (d : Direction) :
    MIN_MOVE_US ≤ calcMoveInterval s d := by
  simp only [calcMoveInterval]
  split_ifs with hv
  · exact le_trans (calcBaseInterval_ge s) (vertScale_ge (calcBaseInterval_one_le s))
  · exact calcBaseInterval_ge s

theorem calcMoveInterval_pos (s : ℤ) (d : Direction) : 0 < calcMoveInterval s d := by
  have := calcMoveInterval_ge s d
  simp only [MIN_MOVE_US] at this
  omega

theorem calcMoveInterval_antitone {s1 s2 : ℤ} (h : s1 ≤ s2) (d : Direction) :
    calcMoveInterval s2 d ≤ calcMoveInterval s1 d := by
  simp only [calcMoveInterval]
  split_ifs with hv
  · exact vertScale_mono (calcBaseInterval_one_le s2) (calcBaseInterval_antitone h)
  · exact calcBaseInterval_antitone h

theorem calcMoveInterval_vert_ge_horiz (s : ℤ) {dv dh : Direction}
    (hv : isVertical dv = true) (hh : isVertical dh = false) :
    calcMoveInterval s dh ≤ calcMoveInterval s dv := by
  simp only [calcMoveInterval]
  rw [hv, hh]
  simp only [if_true, if_false]
  exact vertScale_ge (calcBaseInterval_one_le s)

/-- C8: for all scores `s1 ≤ s2` and every direction `d`,
`calcMoveInterval s2 d ≤ calcMoveInterval s1 d` (the move interval is
monotonically non-increasing in score); for every score and direction the
interval is never below the floor `MIN_MOVE_US`; and at equal score the
interval for a vertical direction is at least the interval for a horizontal
direction. -/
theorem c8_moveInterval_monotone_floor_vert (s1 s2 : ℤ) (d dv dh : Direction)
    (h12 : s1 ≤ s2) (hv : isVertical dv = true) (hh : isVertical dh = false) :
    calcMoveInterval s2 d ≤ calcMoveInterval s1 d ∧
    MIN_MOVE_US ≤ calcMoveInterval s1 d ∧
    calcMoveInterval s1 dh ≤ calcMoveInterval s1 dv :=
  ⟨calcMoveInterval_antitone h12 d, calcMoveInterval_ge s1 d,
    calcMoveInterval_vert_ge_horiz s1 hv hh⟩

/-- Witness for C8 at score 0 ≤ 60, `d = UP`, `dv = UP`, `dh = RIGHT`. -/
theorem c8_moveInterval_monotone_floor_vert_witness :
    (0:ℤ) ≤ 60 ∧ isVertical Direction.UP = true ∧ isVertical Direction.RIGHT = false ∧
    (calcMoveInterval 60 Direction.UP ≤ calcMoveInterval 0 Direction.UP ∧
     MIN_MOVE_US ≤ calcMoveInterval 0 Direction.UP ∧
     calcMoveInterval 0 Direction.RIGHT ≤ calcMoveInterval 0 Direction.UP) :=
  ⟨by decide, by decide, by decide,
    c8_moveInterval_monotone_floor_vert 0 60 Direction.UP Direction.UP Direction.RIGHT
      (by decide) (by decide) (by decide)⟩

-- ─── Game state (snake.cpp lines 100-123) ───────────────────

/-- snake.cpp lines 100-123: `GameState`.  The `std::deque<Point>` is a list
(front = head, back = tail); `grid`/`renderBuf` are the render scratch
buffers. -/
structure GameState where
  snake : List Point
  apple : Point
  dir : Direction
  nextDir : Direction
  score : ℤ
  boardWidth : ℤ
  boardHeight : ℤ
  termWidth : ℤ
  termHeight : ℤ
  offsetX : ℤ
  offsetY : ℤ
  running : Bool
  gameOver : Bool
  gameWon : Bool
  termResized : Bool
  termTooSmall : Bool
  paused : Bool
  restartRequested : Bool
  dirChangedThisTick : Bool
  hasQueuedDir : Bool
  queuedDir : Direction
  moveAccumulator : ℤ
  frameCount : ℕ
  appleFlashTimer : ℤ
  scoreFlashTimer : ℤ
  prevScore : ℤ
  grid : List Char
  renderBuf : String

/-- Row-major index `y * boardWidth + x` used for `grid`/`occ` vectors. -/
def encodeIdx (w : ℤ) (p : Point) : ℕ := (p.y * w + p.x).toNat

/-- A cell lies on the board. -/
def inBounds (w h : ℤ) (p : Point) : Prop :=
  0 ≤ p.x ∧ p.x < w ∧ 0 ≤ p.y ∧ p.y < h

instance (w h : ℤ) (p : Point) : Decidable (inBounds w h p) := by
  unfold inBounds; infer_instance

/-- All board cells in row-major order (the order of the double loops in
`spawnApple`). -/
def allCells (w h : ℤ) : List Point :=
  (List.range h.toNat).flatMap
    (fun (y : ℕ) => (List.range w.toNat).map (fun (x : ℕ) => ⟨(x:ℤ), (y:ℤ)⟩))

/-- snake.cpp lines 278-279: the occupancy vector of the high-density branch:
`occ[s.y*w + s.x] = 1` for every snake cell. -/
def occGrid (w : ℤ) (total : ℕ) (snake : List Point) : List Bool :=
  snake.foldl (fun occ s => occ.set (encodeIdx w s) true) (List.replicate total false)

/-- snake.cpp lines 290-295: the random-trial loop.  Trial `a` draws
`rand()` twice (x then y); `o` is the index of the next unused value of the
`rand()` stream, returned together with the found cell. -/
def appleTry (r : ℕ → ℕ) (w h : ℤ) (snake : List Point) : ℕ → ℕ → Option (Point × ℕ)
  | _, 0 => none
  | o, Nat.succ k =>
    let p : Point := ⟨(r o : ℤ) % w, (r (o + 1) : ℤ) % h⟩
    if p ∈ snake then appleTry r w h snake (o + 2) k else some (p, o + 2)

/-- snake.cpp lines 273-304: `spawnApple`.  Returns the new state, the C++
return value, and the number of `rand()` values consumed (so that a caller
can advance the stream). -/
def spawnApple (r : ℕ → ℕ) (g : GameState) : GameState × Bool × ℕ :=
  let total := g.boardWidth * g.boardHeight
  if (g.snake.length : ℤ) ≥ total then (g, false, 0)
  else if (g.snake.length : ℤ) > Int.tdiv (total * 3) 4 then
    let occ := occGrid g.boardWidth total.toNat g.snake
    let freeCells := (allCells g.boardWidth g.boardHeight).filter
      (fun p => !(occ.getD (encodeIdx g.boardWidth p) false))
    if freeCells.isEmpty then (g, false, 0)
    else
      let picked := freeCells.getD (r 0 % freeCells.length) (⟨0, 0⟩ : Point)
      ({g with apple := picked, appleFlashTimer := FLASH_DURATION}, true, 1)
  else
    match appleTry r g.boardWidth g.boardHeight g.snake 0 APPLE_MAX_TRIES with
    | some (p, used) =>
      ({g with apple := p, appleFlashTimer := FLASH_DURATION}, true, used)
    | none =>
      match (allCells g.boardWidth g.boardHeight).find? (fun p => !(g.snake.contains p)) with
      | some p =>
        ({g with apple := p, appleFlashTimer := FLASH_DURATION}, true, 2 * APPLE_MAX_TRIES)
      | none => (g, false, 2 * APPLE_MAX_TRIES)

/-- snake.cpp lines 307-312: `calcCenteringOffsets`. -/
def calcCenteringOffsets (g : GameState) : GameState :=
  let vw := BOARD_WIDTH * 2 + 4
  let vh := BOARD_HEIGHT + 5
  {g with offsetX := max 0 (Int.tdiv (g.termWidth - vw) 2),
          offsetY := max 0 (Int.tdiv (g.termHeight - vh) 2)}

/-- snake.cpp lines 315-340: `initGame`.  The terminal size query becomes the
parameters `tw th`; the C++ `apple` member is uninitialized before the
`spawnApple` call, modelled as `⟨0,0⟩`; `allocateBuffers` value-initializes
the grid. -/
def initGame (r : ℕ → ℕ) (tw th : ℤ) : GameState :=
  let cx := Int.tdiv BOARD_WIDTH 2
  let cy := Int.tdiv BOARD_HEIGHT 2
  let g0 : GameState := {
    snake := [⟨cx, cy⟩, ⟨cx - 1, cy⟩, ⟨cx - 2, cy⟩]
    apple := ⟨0, 0⟩
    dir := Direction.RIGHT
    nextDir := Direction.RIGHT
    score := 0
    boardWidth := BOARD_WIDTH
    boardHeight := BOARD_HEIGHT
    termWidth := tw
    termHeight := th
    offsetX := 0
    offsetY := 0
    running := true
    gameOver := false
    gameWon := false
    termResized := false
    termTooSmall := decide (tw < MIN_TERM_W ∨ th < MIN_TERM_H)
    paused := false
    restartRequested := false
    dirChangedThisTick := false
    hasQueuedDir := false
    queuedDir := Direction.RIGHT
    moveAccumulator := 0
    frameCount := 0
    appleFlashTimer := 0
    scoreFlashTimer := 0
    prevScore := 0
    grid := List.replicate (BOARD_WIDTH * BOARD_HEIGHT).toNat (Char.ofNat 0)
    renderBuf := "" }
  (spawnApple r (calcCenteringOffsets g0)).1

/-- snake.cpp lines 352-362: `tryChangeDirection`. -/
def tryChangeDirection (g : GameState) (d : Direction) : GameState :=
  if g.dirChangedThisTick = false then
    if isOpposite d g.dir = false then
      {g with nextDir := d, dirChangedThisTick := true, hasQueuedDir := false}
    else g
  else
    if isOpposite d g.nextDir = false ∧ d ≠ g.nextDir then
      {g with queuedDir := d, hasQueuedDir := true}
    else g

/-- Decoding of `"\x1b["`-prefixed arrow keys (snake.cpp lines 387-394). -/
def arrowKeyDir (c : Char) : Option Direction :=
  if c = 'A' then some Direction.UP
  else if c = 'B' then some Direction.DOWN
  else if c = 'D' then some Direction.LEFT
  else if c = 'C' then some Direction.RIGHT
  else none

/-- Decoding of the WASD/HJKL letter keys (snake.cpp lines 397-402). -/
def letterKeyDir (c : Char) : Option Direction :=
  if c = 'w' ∨ c = 'W' ∨ c = 'k' ∨ c = 'K' then some Direction.UP
  else if c = 's' ∨ c = 'S' ∨ c = 'j' ∨ c = 'J' then some Direction.DOWN
  else if c = 'a' ∨ c = 'A' ∨ c = 'h' ∨ c = 'H' then some Direction.LEFT
  else if c = 'd' ∨ c = 'D' ∨ c = 'l' ∨ c = 'L' then some Direction.RIGHT
  else none

/-- snake.cpp lines 365-404: `readInput`, over the list of currently
buffered input bytes.  An escape byte consumes up to two continuation bytes
(the 5 ms `select` timeouts leave `seq` zero-filled when the buffer runs
dry, which then matches no arrow). -/
def readInput : GameState → List Char → GameState
  | g, [] => g
  | g, c :: rest =>
    if c = 'q' ∨ c = 'Q' then {g with running := false}
    else if c = 'r' ∨ c = 'R' then {g with restartRequested := true, running := false}
    else if c = 'p' ∨ c = 'P' then readInput {g with paused := !g.paused} rest
    else if g.paused then readInput g rest
    else if c = '\x1b' then
      match rest with
      | s0 :: s1 :: rest2 =>
        if s0 = '[' then
          match arrowKeyDir s1 with
          | some d => readInput (tryChangeDirection g d) rest2
          | none => readInput g rest2
        else readInput g rest2
      | [_] => g
      | [] => g
    else
      match letterKeyDir c with
      | some d => readInput (tryChangeDirection g d) rest
      | none => readInput g rest

/-- The head cell moved one step in direction `d`
(snake.cpp lines 410-414). -/
def nextHead (d : Direction) (p : Point) : Point :=
  match d with
  | Direction.UP => ⟨p.x, p.y - 1⟩
  | Direction.DOWN => ⟨p.x, p.y + 1⟩
  | Direction.LEFT => ⟨p.x - 1, p.y⟩
  | Direction.RIGHT => ⟨p.x + 1, p.y⟩

/-- snake.cpp lines 407-436: `updateGame`.  The self-collision loop over
`i < limit` is the membership test on `snake.take limit`.  Second component:
`rand()` values consumed by the `spawnApple` call, if any. -/
def updateGame (r : ℕ → ℕ) (g : GameState) : GameState × ℕ :=
  if g.paused then (g, 0)
  else
    let g1 := {g with dir := g.nextDir}
    let nh := nextHead g1.dir (g1.snake.headD ⟨0, 0⟩)
    if nh.x < 0 ∨ nh.x ≥ g1.boardWidth ∨ nh.y < 0 ∨ nh.y ≥ g1.boardHeight then
      ({g1 with gameOver := true, running := false}, 0)
    else
      let growing := decide (nh = g1.apple)
      let limit := g1.snake.length - (if growing then 0 else 1)
      if nh ∈ g1.snake.take limit then
        ({g1 with gameOver := true, running := false}, 0)
      else
        let g2 := {g1 with snake := nh :: g1.snake}
        if growing then
          let g3 := {g2 with score := g2.score + 10}
          let res := spawnApple r g3
          if res.2.1 then (res.1, res.2.2)
          else ({res.1 with gameWon := true, running := false}, res.2.2)
        else
          ({g2 with snake := g2.snake.dropLast}, 0)

/-- snake.cpp lines 944-952 (inside `main`'s step loop): reset the per-tick
flag and promote a queued direction, subject to the opposite-direction
rule. -/
def promoteQueued (g : GameState) : GameState :=
  let g1 := {g with dirChangedThisTick := false}
  if g1.hasQueuedDir then
    let g2 :=
      if isOpposite g1.queuedDir g1.dir = false ∧ g1.queuedDir ≠ g1.dir then
        {g1 with nextDir := g1.queuedDir, dirChangedThisTick := true}
      else g1
    {g2 with hasQueuedDir := false}
  else g1

/-- snake.cpp line 939: the accumulator clamp
`if (moveAccumulator > mi * 3) moveAccumulator = mi;`. -/
def clampAcc (acc mi : ℤ) : ℤ := if mi * 3 < acc then mi else acc

/-- snake.cpp lines 940-954: the simulation-step loop.  The C++ recomputes
`mi = calcMoveInterval(score, nextDir)` at the end of each iteration and the
initial `mi` is computed from the same fields, so every loop test compares
against `calcMoveInterval` of the current state, as here.  `off` advances
the `rand()` stream by the values consumed so far. -/
def stepLoop (r : ℕ → ℕ) (off : ℕ) (g : GameState) (acc : ℤ) : GameState × ℤ :=
  let mi := calcMoveInterval g.score g.nextDir
  if _h : mi ≤ acc then
    let res := updateGame (fun n => r (n + off)) g
    if res.1.running = false then (res.1, acc)
    else stepLoop r (off + res.2) (promoteQueued res.1) (acc - mi)
  else (g, acc)
termination_by acc.toNat
decreasing_by
  have hpos := calcMoveInterval_pos g.score g.nextDir
  omega

/-- snake.cpp lines 936-955: one non-render slice of the `STATE_PLAYING`
frame loop: add the elapsed time `dt` to the accumulator, clamp it, run the
step loop, and store the remaining accumulator. -/
def playFrame (r : ℕ → ℕ) (dt : ℤ) (g : GameState) : GameState :=
  if g.paused then g
  else
    let acc0 := g.moveAccumulator + dt
    let mi := calcMoveInterval g.score g.nextDir
    let res := stepLoop r 0 g (clampAcc acc0 mi)
    {res.1 with moveAccumulator := res.2}

-- ─── Rendering (snake.cpp lines 31-43, 439-568) ─────────────

def RESET : String := "\x1b[0m"
def BOLD : String := "\x1b[1m"
def DIM : String := "\x1b[2m"
def REVERSE : String := "\x1b[7m"
def RED : String := "\x1b[31m"
def GREEN : String := "\x1b[32m"
def YELLOW : String := "\x1b[33m"
def CYAN : String := "\x1b[36m"
def BRIGHT_GREEN : String := "\x1b[92m"
def BRIGHT_CYAN : String := "\x1b[96m"
def BRIGHT_WHITE : String := "\x1b[97m"
def ERASE_LINE : String := "\x1b[K"
def ERASE_BELOW : String := "\x1b[J"

def repStr (n : ℕ) (s : String) : String := String.join (List.replicate n s)

def spaces (n : ℤ) : String := String.mk (List.replicate n.toNat ' ')

def repChar (n : ℤ) (c : Char) : String := String.mk (List.replicate n.toNat c)

/-- snake.cpp lines 440-443 hoisted out of `render`: arm the score flash on a
score change. -/
def scoreSync (g : GameState) : GameState :=
  if g.score ≠ g.prevScore then
    {g with scoreFlashTimer := FLASH_DURATION, prevScore := g.score}
  else g

/-- snake.cpp lines 451-455: when not paused, advance the frame counter
(an `unsigned long`, hence the mod 2^64) and count the flash timers down. -/
def advanceTimers (g : GameState) : GameState :=
  if g.paused then g
  else
    {g with
      frameCount := (g.frameCount + 1) % 2 ^ 64,
      appleFlashTimer :=
        if 0 < g.appleFlashTimer then g.appleFlashTimer - 1 else g.appleFlashTimer,
      scoreFlashTimer :=
        if 0 < g.scoreFlashTimer then g.scoreFlashTimer - 1 else g.scoreFlashTimer}

/-- snake.cpp lines 457-466: rebuild the grid from scratch: body zones
`'a'..'d'`, head `'H'`, apple `'@'`. -/
def buildGrid (g : GameState) : List Char :=
  let base := List.replicate (g.boardWidth * g.boardHeight).toNat ' '
  let bodyLen : ℤ := (g.snake.length : ℤ) - 1
  let withBody := (List.range g.snake.length).foldl (fun grid (i : ℕ) =>
    if 1 ≤ i then
      let seg : ℤ := (i : ℤ) - 1
      let zone0 := if bodyLen ≤ 0 then 0 else Int.tdiv (seg * 4) bodyLen
      let zone := if 3 < zone0 then 3 else zone0
      let p := g.snake.getD i (⟨0, 0⟩ : Point)
      grid.set (encodeIdx g.boardWidth p) (Char.ofNat ('a'.toNat + zone.toNat))
    else grid) base
  let withHead := withBody.set (encodeIdx g.boardWidth (g.snake.headD (⟨0, 0⟩ : Point))) 'H'
  withHead.set (encodeIdx g.boardWidth g.apple) '@'

/-- snake.cpp lines 484-492: colour of the score line.  The float
comparisons `ratio > 0.75f` / `> 0.5f` / `> 0.25f` with
`ratio = t / FLASH_DURATION` are exact at integer timer values (the
quotients at the thresholds, 18/24, 12/24 and 6/24, are exactly
representable), hence the integer comparisons. -/
def scoreColor (t : ℤ) : String :=
  if 0 < t then
    if 3 * FLASH_DURATION < 4 * t then BOLD ++ BRIGHT_WHITE
    else if FLASH_DURATION < 2 * t then BOLD ++ BRIGHT_GREEN
    else if FLASH_DURATION < 4 * t then BOLD ++ GREEN
    else YELLOW
  else BOLD ++ YELLOW

/-- snake.cpp lines 506-535: glyph and colour of one board cell (the C++
`switch` statements have no default case, so an impossible phase value
appends nothing). -/
def cellStr (c : Char) (appleFlashing appleVisible appleFlashBright : Bool)
    (headPhase sparklePhase : ℕ) : String :=
  if c = 'H' then
    if headPhase = 0 then BOLD ++ BRIGHT_GREEN ++ "OO" ++ RESET
    else if headPhase = 1 then BOLD ++ BRIGHT_CYAN ++ "OO" ++ RESET
    else if headPhase = 2 then BOLD ++ BRIGHT_WHITE ++ "OO" ++ RESET
    else ""
  else if c = 'a' then BOLD ++ BRIGHT_GREEN ++ "oo" ++ RESET
  else if c = 'b' then BRIGHT_GREEN ++ "oo" ++ RESET
  else if c = 'c' then GREEN ++ "oo" ++ RESET
  else if c = 'd' then DIM ++ GREEN ++ "oo" ++ RESET
  else if c = '@' then
    if appleFlashing then
      if appleFlashBright then BOLD ++ BRIGHT_WHITE ++ "@@" ++ RESET
      else BOLD ++ YELLOW ++ "@@" ++ RESET
    else if appleVisible then
      if sparklePhase = 0 then BOLD ++ RED ++ "@@" ++ RESET
      else if sparklePhase = 1 then BOLD ++ YELLOW ++ "**" ++ RESET
      else if sparklePhase = 2 then BOLD ++ BRIGHT_WHITE ++ "##" ++ RESET
      else ""
    else DIM ++ RED ++ "@@" ++ RESET
  else "  "

/-- snake.cpp lines 468-565: composition of the frame text from the logical
state, the freshly built grid and the animation phases. -/
def buildBuf (g : GameState) (grid : List Char)
    (appleFlashing appleVisible appleFlashBright : Bool)
    (headPhase sparklePhase : ℕ) : String :=
  let vbw := g.boardWidth * 2 + 4
  let hpad := spaces g.offsetX
  let scoreStr := "Score: " ++ toString g.score
  let top := "\x1b[1;1H" ++ repStr g.offsetY.toNat (ERASE_LINE ++ "\n")
  let scorePad := spaces (max 0 (Int.tdiv (g.termWidth - (scoreStr.length : ℤ)) 2))
  let scoreLine :=
    scorePad ++ scoreColor g.scoreFlashTimer ++ scoreStr ++ RESET ++ ERASE_LINE ++ "\n"
  let border := hpad ++ CYAN ++ repChar vbw '#' ++ RESET ++ ERASE_LINE ++ "\n"
  let rows := String.join ((List.range g.boardHeight.toNat).map (fun y =>
    hpad ++ CYAN ++ "##" ++ RESET ++
    String.join ((List.range g.boardWidth.toNat).map (fun x =>
      cellStr (grid.getD (y * g.boardWidth.toNat + x) ' ')
        appleFlashing appleVisible appleFlashBright headPhase sparklePhase)) ++
    CYAN ++ "##" ++ RESET ++ ERASE_LINE ++ "\n"))
  let instr := "Move: WASD/HJKL/Arrows | P: Pause | R: Restart | Q: Menu"
  let instrPad := spaces (max 0 (Int.tdiv (g.termWidth - (instr.length : ℤ)) 2))
  let instrLine := instrPad ++ CYAN ++ instr ++ RESET ++ ERASE_LINE ++ "\n"
  let mainBuf := top ++ scoreLine ++ border ++ rows ++ border ++ instrLine ++ ERASE_BELOW
  if g.paused then
    let pm := "  PAUSED -- Press P to resume  "
    let cr := g.offsetY + 2 + Int.tdiv g.boardHeight 2
    let cc0 := g.offsetX + 3 + max 0 (Int.tdiv (g.boardWidth * 2 - (pm.length : ℤ)) 2)
    let cc := if cc0 < 1 then 1 else cc0
    mainBuf ++ "\x1b[" ++ toString cr ++ ";" ++ toString cc ++ "H" ++
      BOLD ++ YELLOW ++ REVERSE ++ pm ++ RESET
  else mainBuf

/-- snake.cpp lines 439-568: `render`.  Returns the updated state and the
frame written to the terminal.  The animation phases are read before the
timers advance (lines 445-449 precede 451-455), while the score-line colour
reads `scoreFlashTimer` after the decrement (line 484), as in the source. -/
def render (g : GameState) : GameState × String :=
  let g1 := scoreSync g
  let appleFlashing := decide (0 < g1.appleFlashTimer)
  let appleVisible := decide ((g1.frameCount / APPLE_BLINK_HALF) % 2 = 0)
  let appleFlashBright := decide (Int.tdiv FLASH_DURATION 2 < g1.appleFlashTimer)
  let headPhase := (g1.frameCount / HEAD_GLOW_PERIOD) % 3
  let sparklePhase := (g1.frameCount / APPLE_SPARKLE_RATE) % 3
  let g2 := advanceTimers g1
  let grid := buildGrid g2
  let buf := buildBuf g2 grid appleFlashing appleVisible appleFlashBright headPhase sparklePhase
  ({g2 with grid := grid, renderBuf := buf}, buf)

-- ─── Board-cell and occupancy lemmas ────────────────────────

theorem mem_allCells {w h : ℤ} {p : Point} : p ∈ allCells w h ↔ inBounds w h p := by
  unfold allCells inBounds
  rw [List.mem_flatMap]
  constructor
  · rintro ⟨y, hy, hp⟩
    rw [List.mem_range] at hy
    rw [List.mem_map] at hp
    obtain ⟨x, hx, he⟩ := hp
    rw [List.mem_range] at hx
    subst he
    refine ⟨?_, ?_, ?_, ?_⟩ <;> dsimp only <;> omega
  · rintro ⟨hx0, hxw, hy0, hyh⟩
    refine ⟨p.y.toNat, ?_, ?_⟩
    · rw [List.mem_range]; omega
    · rw [List.mem_map]
      refine ⟨p.x.toNat, ?_, ?_⟩
      · rw [List.mem_range]; omega
      · cases p
        simp only [Point.mk.injEq]
        constructor <;> dsimp only at hx0 hxw hy0 hyh ⊢ <;> omega

theorem allCells_nodup (w h : ℤ) : (allCells w h).Nodup := by
  unfold allCells
  rw [List.nodup_flatMap]
  constructor
  · intro y _
    apply List.Nodup.map
    · intro a b hab
      simpa using hab
    · exact List.nodup_range _
  · apply List.Pairwise.imp ?_ (List.pairwise_lt_range h.toNat)
    intro a b hab
    intro p hp hq
    simp only [List.mem_map, List.mem_range] at hp hq
    obtain ⟨xa, _, rfl⟩ := hp
    obtain ⟨xb, _, he⟩ := hq
    have : (a : ℤ) = (b : ℤ) := by
      have := congrArg Point.y he
      simpa using this.symm
    omega

theorem allCells_length (w h : ℤ) : (allCells w h).length = h.toNat * w.toNat := by
  unfold allCells
  rw [List.length_flatMap]
  have hc : (List.length ∘ fun (y : ℕ) =>
      (List.range w.toNat).map (fun (x : ℕ) => (⟨(x:ℤ), (y:ℤ)⟩ : Point))) = fun _ => w.toNat := by
    funext y
    simp [Function.comp]
  rw [hc, List.map_const', List.sum_replicate, smul_eq_mul, List.length_range]

theorem encodeIdx_inj {w h : ℤ} (hw : 0 < w) {p q : Point}
    (hp : inBounds w h p) (hq : inBounds w h q)
    (he : encodeIdx w p = encodeIdx w q) : p = q := by
  obtain ⟨hpx, hpxw, hpy, _⟩ := hp
  obtain ⟨hqx, hqxw, hqy, _⟩ := hq
  unfold encodeIdx at he
  have hpn : 0 ≤ p.y * w := mul_nonneg hpy (le_of_lt hw)
  have hqn : 0 ≤ q.y * w := mul_nonneg hqy (le_of_lt hw)
  have hsum : p.y * w + p.x = q.y * w + q.x := by omega
  have hyy : p.y = q.y := by
    by_contra hne
    rcases lt_or_gt_of_ne hne with hlt | hgt
    · have h1 : p.y + 1 ≤ q.y := by omega
      have h2 : (p.y + 1) * w ≤ q.y * w := mul_le_mul_of_nonneg_right h1 (le_of_lt hw)
      nlinarith
    · have h1 : q.y + 1 ≤ p.y := by omega
      have h2 : (q.y + 1) * w ≤ p.y * w := mul_le_mul_of_nonneg_right h1 (le_of_lt hw)
      nlinarith
  have hxx : p.x = q.x := by
    rw [hyy] at hsum
    omega
  cases p; cases q
  simp_all

theorem encodeIdx_lt_total {w h : ℤ} (hw : 0 < w) {p : Point}
    (hp : inBounds w h p) : encodeIdx w p < (w * h).toNat := by
  obtain ⟨hpx, hpxw, hpy, hpyh⟩ := hp
  have h1 : p.y * w + p.x < w * h := by nlinarith
  have h2 : 0 ≤ p.y * w := mul_nonneg hpy (le_of_lt hw)
  unfold encodeIdx
  omega

theorem occGrid_length (w : ℤ) (total : ℕ) (snake : List Point) :
    (occGrid w total snake).length = total := by
  unfold occGrid
  have key : ∀ (l : List Point) (acc : List Bool),
      (l.foldl (fun occ s => occ.set (encodeIdx w s) true) acc).length = acc.length := by
    intro l
    induction l with
    | nil => intro acc; rfl
    | cons s t ih =>
      intro acc
      rw [List.foldl_cons, ih, List.length_set]
  rw [key, List.length_replicate]

theorem occGrid_foldl_true_of {w : ℤ} (l : List Point) (acc : List Bool) (i : ℕ)
    (hi : i < acc.length)
    (h : acc.getD i false = true ∨ ∃ s ∈ l, encodeIdx w s = i) :
    (l.foldl (fun occ s => occ.set (encodeIdx w s) true) acc).getD i false = true := by
  induction l generalizing acc with
  | nil =>
    rcases h with h | ⟨s, hs, _⟩
    · exact h
    · exact absurd hs (List.not_mem_nil s)
  | cons s t ih =>
    rw [List.foldl_cons]
    apply ih
    · rw [List.length_set]; exact hi
    · by_cases hsi : encodeIdx w s = i
      · left
        rw [List.getD_eq_getElem?_getD, hsi, List.getElem?_set_self hi]
        rfl
      · rcases h with h | ⟨u, hu, hue⟩
        · left
          rw [List.getD_eq_getElem?_getD, List.getElem?_set_ne hsi, ← List.getD_eq_getElem?_getD]
          exact h
        · rcases List.mem_cons.mp hu with rfl | hut
          · exact absurd hue hsi
          · right; exact ⟨u, hut, hue⟩

theorem occGrid_true_of_mem {w : ℤ} {total : ℕ} {snake : List Point} {s : Point}
    (hs : s ∈ snake) (hidx : encodeIdx w s < total) :
    (occGrid w total snake).getD (encodeIdx w s) false = true := by
  unfold occGrid
  apply occGrid_foldl_true_of
  · rw [List.length_replicate]; exact hidx
  · right; exact ⟨s, hs, rfl⟩

theorem occGrid_foldl_true_imp {w : ℤ} (l : List Point) (acc : List Bool) (i : ℕ)
    (h : (l.foldl (fun occ s => occ.set (encodeIdx w s) true) acc).getD i false = true) :
    acc.getD i false = true ∨ ∃ s ∈ l, encodeIdx w s = i := by
  induction l generalizing acc with
  | nil => exact Or.inl h
  | cons s t ih =>
    rw [List.foldl_cons] at h
    rcases ih _ h with hacc | ⟨u, hu, hue⟩
    · by_cases hsi : encodeIdx w s = i
      · right; exact ⟨s, List.mem_cons_self s t, hsi⟩
      · left
        rw [List.getD_eq_getElem?_getD, List.getElem?_set_ne hsi, ← List.getD_eq_getElem?_getD] at hacc
        exact hacc
    · right; exact ⟨u, List.mem_cons_of_mem s hu, hue⟩

theorem occGrid_true_iff {w : ℤ} {total : ℕ} {snake : List Point} {i : ℕ}
    (h : (occGrid w total snake).getD i false = true) :
    ∃ s ∈ snake, encodeIdx w s = i := by
  unfold occGrid at h
  rcases occGrid_foldl_true_imp _ _ _ h with hrep | hex
  · exfalso
    rw [List.getD_eq_getElem?_getD] at hrep
    rcases Nat.lt_or_ge i total with hlt | hge
    · rw [List.getElem?_eq_getElem (by simpa using hlt)] at hrep
      simp [List.getElem_replicate] at hrep
    · rw [List.getElem?_eq_none (by simpa using hge)] at hrep
      simp at hrep
  · exact hex

theorem exists_free_cell {w h : ℤ} {snake : List Point} (hw : 0 < w) (hh : 0 < h)
    (hlen : (snake.length : ℤ) < w * h) :
    ∃ p ∈ allCells w h, p ∉ snake := by
  by_contra hall
  push_neg at hall
  have hsub : (allCells w h).toFinset ⊆ snake.toFinset := by
    intro p hp
    rw [List.mem_toFinset] at *
    exact hall p hp
  have h2 := Finset.card_le_card hsub
  rw [List.toFinset_card_of_nodup (allCells_nodup w h)] at h2
  have h4 := List.toFinset_card_le snake
  have h5 := allCells_length w h
  have h6 : ((h.toNat * w.toNat : ℕ) : ℤ) = h * w := by
    push_cast [Int.toNat_of_nonneg (le_of_lt hw), Int.toNat_of_nonneg (le_of_lt hh)]
    ring
  have h7 : (snake.length : ℤ) ≥ ((h.toNat * w.toNat : ℕ) : ℤ) := by
    exact_mod_cast le_trans (h5 ▸ h2) h4
  rw [h6] at h7
  have : h * w = w * h := mul_comm h w
  omega

theorem snake_length_le_total {w h : ℤ} {snake : List Point} (hnd : snake.Nodup)
    (hin : ∀ p ∈ snake, inBounds w h p) (hw : 0 < w) (hh : 0 < h) :
    (snake.length : ℤ) ≤ w * h := by
  by_contra hgt
  push_neg at hgt
  have hsub : snake.toFinset ⊆ (allCells w h).toFinset := by
    intro p hp
    rw [List.mem_toFinset] at *
    exact mem_allCells.mpr (hin p hp)
  have h2 := Finset.card_le_card hsub
  rw [List.toFinset_card_of_nodup hnd,
    List.toFinset_card_of_nodup (allCells_nodup w h)] at h2
  have h5 := allCells_length w h
  have h6 : ((h.toNat * w.toNat : ℕ) : ℤ) = h * w := by
    push_cast [Int.toNat_of_nonneg (le_of_lt hw), Int.toNat_of_nonneg (le_of_lt hh)]
    ring
  have h7 : (snake.length : ℤ) ≤ ((h.toNat * w.toNat : ℕ) : ℤ) := by
    exact_mod_cast h5 ▸ h2
  rw [h6] at h7
  have : h * w = w * h := mul_comm h w
  omega

-- ─── spawnApple lemmas ──────────────────────────────────────

theorem appleTry_some_spec {r : ℕ → ℕ} {w h : ℤ} {snake : List Point}
    (hw : 0 < w) (hh : 0 < h) :
    ∀ {o k : ℕ} {p : Point} {used : ℕ},
      appleTry r w h snake o k = some (p, used) → inBounds w h p ∧ p ∉ snake := by
  intro o k
  induction k generalizing o with
  | zero =>
    intro p used he
    simp [appleTry] at he
  | succ k ih =>
    intro p used he
    rw [appleTry] at he
    by_cases hmem : (⟨(r o : ℤ) % w, (r (o + 1) : ℤ) % h⟩ : Point) ∈ snake
    · rw [if_pos hmem] at he
      exact ih he
    · rw [if_neg hmem] at he
      have hp : p = ⟨(r o : ℤ) % w, (r (o + 1) : ℤ) % h⟩ := by
        have := Option.some.inj he
        exact (Prod.ext_iff.mp this).1.symm
      subst hp
      refine ⟨⟨?_, ?_, ?_, ?_⟩, hmem⟩
      · exact Int.emod_nonneg _ (ne_of_gt hw)
      · exact Int.emod_lt_of_pos _ hw
      · exact Int.emod_nonneg _ (ne_of_gt hh)
      · exact Int.emod_lt_of_pos _ hh

theorem spawnApple_cases (r : ℕ → ℕ) (g : GameState) :
    (spawnApple r g).1 = g ∨
    ∃ p, (spawnApple r g).1 = {g with apple := p, appleFlashTimer := FLASH_DURATION} := by
  simp only [spawnApple]
  by_cases h1 : (g.snake.length : ℤ) ≥ g.boardWidth * g.boardHeight
  · rw [if_pos h1]
    exact Or.inl rfl
  · rw [if_neg h1]
    by_cases h2 : (g.snake.length : ℤ) > Int.tdiv (g.boardWidth * g.boardHeight * 3) 4
    · rw [if_pos h2]
      by_cases h3 : ((allCells g.boardWidth g.boardHeight).filter
          (fun p => !((occGrid g.boardWidth (g.boardWidth * g.boardHeight).toNat g.snake).getD
            (encodeIdx g.boardWidth p) false))).isEmpty = true
      · rw [if_pos h3]
        exact Or.inl rfl
      · rw [if_neg h3]
        exact Or.inr ⟨_, rfl⟩
    · rw [if_neg h2]
      rcases htr : appleTry r g.boardWidth g.boardHeight g.snake 0 APPLE_MAX_TRIES
        with _ | ⟨p, used⟩
      · rcases hfd : (allCells g.boardWidth g.boardHeight).find?
            (fun p => !(g.snake.contains p)) with _ | q
        · exact Or.inl rfl
        · exact Or.inr ⟨_, rfl⟩
      · exact Or.inr ⟨_, rfl⟩

theorem spawnApple_fields (r : ℕ → ℕ) (g : GameState) :
    (spawnApple r g).1.snake = g.snake ∧ (spawnApple r g).1.score = g.score ∧
    (spawnApple r g).1.gameOver = g.gameOver ∧ (spawnApple r g).1.running = g.running ∧
    (spawnApple r g).1.gameWon = g.gameWon ∧ (spawnApple r g).1.dir = g.dir ∧
    (spawnApple r g).1.nextDir = g.nextDir ∧ (spawnApple r g).1.paused = g.paused := by
  rcases spawnApple_cases r g with h | ⟨p, h⟩ <;> rw [h] <;>
    exact ⟨rfl, rfl, rfl, rfl, rfl, rfl, rfl, rfl⟩

/-- Occupancy of a free in-bounds cell is `false` when the whole snake is
in bounds. -/
theorem occGrid_false_of_not_mem {w h : ℤ} {snake : List Point} {p : Point}
    (hw : 0 < w)
    (hin : ∀ s ∈ snake, inBounds w h s) (hp : inBounds w h p) (hpn : p ∉ snake) :
    (occGrid w ((w * h).toNat) snake).getD (encodeIdx w p) false = false := by
  cases hcase : (occGrid w ((w * h).toNat) snake).getD (encodeIdx w p) false with
  | false => rfl
  | true =>
    exfalso
    obtain ⟨s, hs, hse⟩ := occGrid_true_iff hcase
    exact hpn (encodeIdx_inj hw (hin s hs) hp hse ▸ hs)

theorem spawnApple_true_of_lt (r : ℕ → ℕ) (g : GameState)
    (hw : 0 < g.boardWidth) (hh : 0 < g.boardHeight)
    (hin : ∀ p ∈ g.snake, inBounds g.boardWidth g.boardHeight p)
    (hlt : (g.snake.length : ℤ) < g.boardWidth * g.boardHeight) :
    (spawnApple r g).2.1 = true := by
  obtain ⟨pf, hpfc, hpfn⟩ := exists_free_cell hw hh hlt
  have hocc := occGrid_false_of_not_mem hw hin (mem_allCells.mp hpfc) hpfn
  have hmem : pf ∈ (allCells g.boardWidth g.boardHeight).filter
      (fun p => !((occGrid g.boardWidth (g.boardWidth * g.boardHeight).toNat g.snake).getD
        (encodeIdx g.boardWidth p) false)) := by
    refine List.mem_filter.mpr ⟨hpfc, ?_⟩
    rw [hocc]
    rfl
  simp only [spawnApple]
  rw [if_neg (show ¬((g.snake.length : ℤ) ≥ g.boardWidth * g.boardHeight) by omega)]
  by_cases hdens : (g.snake.length : ℤ) > Int.tdiv (g.boardWidth * g.boardHeight * 3) 4
  · rw [if_pos hdens]
    have hne : ¬(((allCells g.boardWidth g.boardHeight).filter
        (fun p => !((occGrid g.boardWidth (g.boardWidth * g.boardHeight).toNat g.snake).getD
          (encodeIdx g.boardWidth p) false))).isEmpty = true) := by
      intro hempty
      rw [List.isEmpty_iff] at hempty
      rw [hempty] at hmem
      exact absurd hmem (List.not_mem_nil pf)
    rw [if_neg hne]
  · rw [if_neg hdens]
    rcases htr : appleTry r g.boardWidth g.boardHeight g.snake 0 APPLE_MAX_TRIES
      with _ | ⟨p, used⟩
    · rcases hfd : (allCells g.boardWidth g.boardHeight).find?
          (fun p => !(g.snake.contains p)) with _ | q
      · exfalso
        have hsome : (((allCells g.boardWidth g.boardHeight).find?
            (fun p => !(g.snake.contains p)))).isSome = true := by
          rw [List.find?_isSome]
          refine ⟨pf, hpfc, ?_⟩
          simp [hpfn]
        rw [hfd] at hsome
        simp at hsome
      · rfl
    · rfl

/-- C2: for every game state with pairwise-distinct, in-board snake cells
and for every outcome of the random number source, `spawnApple` returns
`false` if and only if the snake length equals `boardWidth * boardHeight`;
whenever at least one cell is free it returns `true`, in every tier. -/
theorem c2_spawnApple_false_iff (r : ℕ → ℕ) (g : GameState)
    (hw : 0 < g.boardWidth) (hh : 0 < g.boardHeight)
    (hnd : g.snake.Nodup)
    (hin : ∀ p ∈ g.snake, inBounds g.boardWidth g.boardHeight p) :
    ((spawnApple r g).2.1 = false ↔
      (g.snake.length : ℤ) = g.boardWidth * g.boardHeight) := by
  have hle := snake_length_le_total hnd hin hw hh
  constructor
  · intro hfalse
    by_contra hne
    have hlt : (g.snake.length : ℤ) < g.boardWidth * g.boardHeight :=
      lt_of_le_of_ne hle hne
    have htrue := spawnApple_true_of_lt r g hw hh hin hlt
    rw [htrue] at hfalse
    exact absurd hfalse (by simp)
  · intro heq
    simp only [spawnApple]
    rw [if_pos (show (g.snake.length : ℤ) ≥ g.boardWidth * g.boardHeight by omega)]

/-- A concrete playing state used to instantiate witnesses. -/
def sampleState : GameState where
  snake := [⟨5, 5⟩, ⟨4, 5⟩, ⟨3, 5⟩]
  apple := ⟨6, 5⟩
  dir := Direction.RIGHT
  nextDir := Direction.RIGHT
  score := 0
  boardWidth := BOARD_WIDTH
  boardHeight := BOARD_HEIGHT
  termWidth := 100
  termHeight := 30
  offsetX := 8
  offsetY := 2
  running := true
  gameOver := false
  gameWon := false
  termResized := false
  termTooSmall := false
  paused := false
  restartRequested := false
  dirChangedThisTick := false
  hasQueuedDir := false
  queuedDir := Direction.RIGHT
  moveAccumulator := 0
  frameCount := 0
  appleFlashTimer := 0
  scoreFlashTimer := 0
  prevScore := 0
  grid := []
  renderBuf := ""

/-- A fully occupied 2-by-1 board, for the C2 witness. -/
def fullBoardState : GameState := {sampleState with
  boardWidth := 2
  boardHeight := 1
  snake := [⟨0, 0⟩, ⟨1, 0⟩]}

/-- Witness for C2 on the full 2-by-1 board. -/
theorem c2_spawnApple_false_iff_witness :
    (0 : ℤ) < fullBoardState.boardWidth ∧ (0 : ℤ) < fullBoardState.boardHeight ∧
    fullBoardState.snake.Nodup ∧
    (∀ p ∈ fullBoardState.snake,
      inBounds fullBoardState.boardWidth fullBoardState.boardHeight p) ∧
    ((spawnApple (fun _ => 0) fullBoardState).2.1 = false ↔
      (fullBoardState.snake.length : ℤ) =
        fullBoardState.boardWidth * fullBoardState.boardHeight) :=
  ⟨by decide, by decide, by decide, by decide,
    c2_spawnApple_false_iff (fun _ => 0) fullBoardState
      (by decide) (by decide) (by decide) (by decide)⟩

/-- C5: whenever `spawnApple` returns `true`, the new apple is within board
bounds and is on no snake cell, in every tier of the algorithm. -/
theorem c5_spawnApple_no_overlap (r : ℕ → ℕ) (g : GameState)
    (hw : 0 < g.boardWidth) (hh : 0 < g.boardHeight)
    (hin : ∀ p ∈ g.snake, inBounds g.boardWidth g.boardHeight p)
    (ht : (spawnApple r g).2.1 = true) :
    inBounds g.boardWidth g.boardHeight (spawnApple r g).1.apple ∧
    (spawnApple r g).1.apple ∉ g.snake := by
  simp only [spawnApple] at ht ⊢
  by_cases h1 : (g.snake.length : ℤ) ≥ g.boardWidth * g.boardHeight
  · rw [if_pos h1] at ht
    exact absurd ht (by simp)
  · rw [if_neg h1] at ht ⊢
    by_cases h2 : (g.snake.length : ℤ) > Int.tdiv (g.boardWidth * g.boardHeight * 3) 4
    · rw [if_pos h2] at ht ⊢
      by_cases h3 : (((allCells g.boardWidth g.boardHeight).filter
          (fun p => !((occGrid g.boardWidth (g.boardWidth * g.boardHeight).toNat g.snake).getD
            (encodeIdx g.boardWidth p) false))).isEmpty = true)
      · rw [if_pos h3] at ht
        exact absurd ht (by simp)
      · rw [if_neg h3] at ht ⊢
        have hfcne : ((allCells g.boardWidth g.boardHeight).filter
            (fun p => !((occGrid g.boardWidth (g.boardWidth * g.boardHeight).toNat g.snake).getD
              (encodeIdx g.boardWidth p) false))) ≠ [] := by
          intro hnil
          exact h3 (by rw [List.isEmpty_iff]; exact hnil)
        have hlen : 0 < ((allCells g.boardWidth g.boardHeight).filter
            (fun p => !((occGrid g.boardWidth (g.boardWidth * g.boardHeight).toNat g.snake).getD
              (encodeIdx g.boardWidth p) false))).length := List.length_pos.mpr hfcne
        have hidx := Nat.mod_lt (r 0) hlen
        have hmem : ((allCells g.boardWidth g.boardHeight).filter
            (fun p => !((occGrid g.boardWidth (g.boardWidth * g.boardHeight).toNat g.snake).getD
              (encodeIdx g.boardWidth p) false))).getD
                (r 0 % ((allCells g.boardWidth g.boardHeight).filter
                  (fun p => !((occGrid g.boardWidth
                    (g.boardWidth * g.boardHeight).toNat g.snake).getD
                      (encodeIdx g.boardWidth p) false))).length) (⟨0, 0⟩ : Point)
            ∈ ((allCells g.boardWidth g.boardHeight).filter
              (fun p => !((occGrid g.boardWidth (g.boardWidth * g.boardHeight).toNat g.snake).getD
                (encodeIdx g.boardWidth p) false))) := by
          rw [List.getD_eq_getElem _ _ hidx]
          exact List.getElem_mem hidx
        obtain ⟨hallc, hpred⟩ := List.mem_filter.mp hmem
        refine ⟨mem_allCells.mp hallc, ?_⟩
        intro hcontra
        have hocc := occGrid_true_of_mem hcontra
          (encodeIdx_lt_total hw (mem_allCells.mp hallc))
        rw [hocc] at hpred
        exact absurd hpred (by simp)
    · rw [if_neg h2] at ht ⊢
      rcases htr : appleTry r g.boardWidth g.boardHeight g.snake 0 APPLE_MAX_TRIES
        with _ | ⟨p, used⟩
      · rw [htr] at ht
        rcases hfd : (allCells g.boardWidth g.boardHeight).find?
            (fun p => !(g.snake.contains p)) with _ | q
        · rw [hfd] at ht
          exact absurd ht (by simp)
        · rw [hfd] at ht
          have hq1 : q ∈ allCells g.boardWidth g.boardHeight :=
            List.mem_of_find?_eq_some hfd
          have hq2 : q ∉ g.snake := by
            have := List.find?_some (p := fun p => !(g.snake.contains p)) hfd
            simpa using this
          exact ⟨mem_allCells.mp hq1, hq2⟩
      · rw [htr] at ht
        have hspec := appleTry_some_spec hw hh htr
        exact hspec

/-- Witness for C5 on `sampleState` (random-trial tier). -/
theorem c5_spawnApple_no_overlap_witness :
    (0 : ℤ) < sampleState.boardWidth ∧ (0 : ℤ) < sampleState.boardHeight ∧
    (∀ p ∈ sampleState.snake,
      inBounds sampleState.boardWidth sampleState.boardHeight p) ∧
    (spawnApple (fun _ => 0) sampleState).2.1 = true ∧
    (inBounds sampleState.boardWidth sampleState.boardHeight
      (spawnApple (fun _ => 0) sampleState).1.apple ∧
     (spawnApple (fun _ => 0) sampleState).1.apple ∉ sampleState.snake) :=
  ⟨by decide, by decide, by decide, by decide,
    c5_spawnApple_no_overlap (fun _ => 0) sampleState
      (by decide) (by decide) (by decide) (by decide)⟩

-- ─── updateGame branch equations ───────────────────────────

theorem updateGame_paused (r : ℕ → ℕ) (g : GameState) (hp : g.paused = true) :
    updateGame r g = (g, 0) := by
  simp only [updateGame, hp]
  rw [if_pos trivial]

theorem updateGame_wall (r : ℕ → ℕ) (g : GameState) (hp : g.paused = false)
    (hob : (nextHead g.nextDir (g.snake.headD ⟨0, 0⟩)).x < 0 ∨
      (nextHead g.nextDir (g.snake.headD ⟨0, 0⟩)).x ≥ g.boardWidth ∨
      (nextHead g.nextDir (g.snake.headD ⟨0, 0⟩)).y < 0 ∨
      (nextHead g.nextDir (g.snake.headD ⟨0, 0⟩)).y ≥ g.boardHeight) :
    updateGame r g = ({g with dir := g.nextDir, gameOver := true, running := false}, 0) := by
  simp only [updateGame, hp]
  rw [if_neg (by simp), if_pos hob]

theorem updateGame_self (r : ℕ → ℕ) (g : GameState) (hp : g.paused = false)
    (hib : ¬((nextHead g.nextDir (g.snake.headD ⟨0, 0⟩)).x < 0 ∨
      (nextHead g.nextDir (g.snake.headD ⟨0, 0⟩)).x ≥ g.boardWidth ∨
      (nextHead g.nextDir (g.snake.headD ⟨0, 0⟩)).y < 0 ∨
      (nextHead g.nextDir (g.snake.headD ⟨0, 0⟩)).y ≥ g.boardHeight))
    (hmem : nextHead g.nextDir (g.snake.headD ⟨0, 0⟩) ∈
      g.snake.take (g.snake.length -
        (if nextHead g.nextDir (g.snake.headD ⟨0, 0⟩) = g.apple then 0 else 1))) :
    updateGame r g = ({g with dir := g.nextDir, gameOver := true, running := false}, 0) := by
  simp only [updateGame, hp]
  rw [if_neg (by simp), if_neg hib]
  rw [if_pos (by simpa using hmem)]


theorem updateGame_grow (r : ℕ → ℕ) (g : GameState) (hp : g.paused = false)
    (hib : ¬((nextHead g.nextDir (g.snake.headD ⟨0, 0⟩)).x < 0 ∨
      (nextHead g.nextDir (g.snake.headD ⟨0, 0⟩)).x ≥ g.boardWidth ∨
      (nextHead g.nextDir (g.snake.headD ⟨0, 0⟩)).y < 0 ∨
      (nextHead g.nextDir (g.snake.headD ⟨0, 0⟩)).y ≥ g.boardHeight))
    (hgrow : nextHead g.nextDir (g.snake.headD ⟨0, 0⟩) = g.apple)
    (hmem : nextHead g.nextDir (g.snake.headD ⟨0, 0⟩) ∉ g.snake.take g.snake.length) :
    updateGame r g =
      (let g3 : GameState := {g with
          dir := g.nextDir
          snake := nextHead g.nextDir (g.snake.headD ⟨0, 0⟩) :: g.snake
          score := g.score + 10}
       let res := spawnApple r g3
       if res.2.1 then (res.1, res.2.2)
       else ({res.1 with gameWon := true, running := false}, res.2.2)) := by
  simp only [updateGame, hp]
  rw [if_neg (by simp), if_neg hib]
  have hd : decide (nextHead g.nextDir (g.snake.headD ⟨0, 0⟩) = g.apple) = true :=
    decide_eq_true hgrow
  simp only [hd, if_pos, eq_self_iff_true, if_true, Nat.sub_zero]
  rw [if_neg hmem]

theorem updateGame_nogrow (r : ℕ → ℕ) (g : GameState) (hp : g.paused = false)
    (hib : ¬((nextHead g.nextDir (g.snake.headD ⟨0, 0⟩)).x < 0 ∨
      (nextHead g.nextDir (g.snake.headD ⟨0, 0⟩)).x ≥ g.boardWidth ∨
      (nextHead g.nextDir (g.snake.headD ⟨0, 0⟩)).y < 0 ∨
      (nextHead g.nextDir (g.snake.headD ⟨0, 0⟩)).y ≥ g.boardHeight))
    (hng : nextHead g.nextDir (g.snake.headD ⟨0, 0⟩) ≠ g.apple)
    (hmem : nextHead g.nextDir (g.snake.headD ⟨0, 0⟩) ∉ g.snake.take (g.snake.length - 1)) :
    updateGame r g = ({g with
      dir := g.nextDir
      snake := (nextHead g.nextDir (g.snake.headD ⟨0, 0⟩) :: g.snake).dropLast}, 0) := by
  simp only [updateGame, hp]
  rw [if_neg (by simp), if_neg hib]
  have hd : decide (nextHead g.nextDir (g.snake.headD ⟨0, 0⟩) = g.apple) = false :=
    decide_eq_false hng
  simp only [hd, Bool.false_eq_true, if_false]
  rw [if_neg hmem]

-- ─── C1: the accumulator clamp ──────────────────────────────

/-- C1 counterexample: with interval 120000 and accumulator 480001 the
scheduler's clamp (snake.cpp line 939) sets the accumulator to the interval
itself, 120000 — not to min(480001, 3·120000) = 360000, as the claim
states. -/
theorem c1_clamp_counterexample :
    clampAcc 480001 120000 = 120000 ∧
    min (480001 : ℤ) (3 * 120000) = 360000 ∧
    clampAcc 480001 120000 ≠ min (480001 : ℤ) (3 * 120000) := by
  refine ⟨by decide, by decide, by decide⟩

/-- C1 (amended): in a non-paused Playing frame, the accumulator entering
the simulation-step loop is `acc0` when `acc0 ≤ 3·iv` and exactly `iv` (not
`3·iv`) when `acc0 > 3·iv`; in both cases it is at most
`min acc0 (3·iv)`. -/
theorem c1_clampAcc_amended (acc mi : ℤ) (h : 0 < mi) :
    clampAcc acc mi ≤ min acc (3 * mi) ∧
    (acc ≤ 3 * mi → clampAcc acc mi = acc) ∧
    (3 * mi < acc → clampAcc acc mi = mi) := by
  unfold clampAcc
  split_ifs with hc <;> refine ⟨?_, fun h2 => ?_, fun h3 => ?_⟩ <;> omega

/-- Witness for the amended C1 at the counterexample's inputs. -/
theorem c1_clampAcc_amended_witness :
    (0 : ℤ) < 120000 ∧
    (clampAcc 480001 120000 ≤ min 480001 (3 * 120000) ∧
     ((480001 : ℤ) ≤ 3 * 120000 → clampAcc 480001 120000 = 480001) ∧
     (3 * 120000 < (480001 : ℤ) → clampAcc 480001 120000 = 120000)) :=
  ⟨by decide, c1_clampAcc_amended 480001 120000 (by decide)⟩

-- ─── C3: distinctness invariant ─────────────────────────────

theorem nodup_cons_dropLast {x : Point} {l : List Point} (hnd : l.Nodup)
    (hx : x ∉ l.dropLast) : ((x :: l).dropLast).Nodup := by
  cases l with
  | nil => simp
  | cons a t =>
    have he : (x :: a :: t).dropLast = x :: (a :: t).dropLast := by
      rw [List.dropLast_eq_take, List.dropLast_eq_take]
      simp [List.take_succ_cons]
    rw [he]
    exact List.nodup_cons.mpr ⟨hx, List.Nodup.sublist (List.dropLast_sublist _) hnd⟩

theorem bool_eq_false_of_ne_true {b : Bool} (h : ¬(b = true)) : b = false := by
  cases b
  · rfl
  · exact absurd rfl h

theorem updateGame_preserves_nodup (r : ℕ → ℕ) (g : GameState)
    (hnd : g.snake.Nodup) : ((updateGame r g).1.snake).Nodup := by
  by_cases hp : g.paused = true
  · rw [updateGame_paused r g hp]
    exact hnd
  · have hp' : g.paused = false := bool_eq_false_of_ne_true hp
    by_cases hob : ((nextHead g.nextDir (g.snake.headD ⟨0, 0⟩)).x < 0 ∨
        (nextHead g.nextDir (g.snake.headD ⟨0, 0⟩)).x ≥ g.boardWidth ∨
        (nextHead g.nextDir (g.snake.headD ⟨0, 0⟩)).y < 0 ∨
        (nextHead g.nextDir (g.snake.headD ⟨0, 0⟩)).y ≥ g.boardHeight)
    · rw [updateGame_wall r g hp' hob]
      exact hnd
    · by_cases hgrow : nextHead g.nextDir (g.snake.headD ⟨0, 0⟩) = g.apple
      · by_cases hmem : nextHead g.nextDir (g.snake.headD ⟨0, 0⟩) ∈
            g.snake.take g.snake.length
        · rw [updateGame_self r g hp' hob (by rw [if_pos hgrow]; simpa using hmem)]
          exact hnd
        · rw [updateGame_grow r g hp' hob hgrow hmem]
          have hnotmem : nextHead g.nextDir (g.snake.headD ⟨0, 0⟩) ∉ g.snake := by
            rw [List.take_length] at hmem
            exact hmem
          dsimp only
          split
          · rw [(spawnApple_fields r _).1]
            exact List.nodup_cons.mpr ⟨hnotmem, hnd⟩
          · show ((spawnApple r _).1.snake).Nodup
            rw [(spawnApple_fields r _).1]
            exact List.nodup_cons.mpr ⟨hnotmem, hnd⟩
      · by_cases hmem : nextHead g.nextDir (g.snake.headD ⟨0, 0⟩) ∈
            g.snake.take (g.snake.length - 1)
        · rw [updateGame_self r g hp' hob (by rw [if_neg hgrow]; simpa using hmem)]
          exact hnd
        · rw [updateGame_nogrow r g hp' hob hgrow hmem]
          have hx : nextHead g.nextDir (g.snake.headD ⟨0, 0⟩) ∉ g.snake.dropLast := by
            rw [List.dropLast_eq_take]
            exact hmem
          exact nodup_cons_dropLast hnd hx

/-- C3: pairwise distinctness of the snake cells is an invariant: the
initial three-cell snake of `initGame` is duplicate-free, and `updateGame`
applied to a state with a duplicate-free snake whose apple is not on the
snake yields a duplicate-free snake again. -/
theorem c3_snake_nodup_invariant :
    (∀ (r : ℕ → ℕ) (tw th : ℤ), ((initGame r tw th).snake).Nodup) ∧
    (∀ (r : ℕ → ℕ) (g : GameState), g.snake.Nodup → g.apple ∉ g.snake →
      ((updateGame r g).1.snake).Nodup) := by
  constructor
  · intro r tw th
    have hs : (initGame r tw th).snake =
        [⟨Int.tdiv BOARD_WIDTH 2, Int.tdiv BOARD_HEIGHT 2⟩,
         ⟨Int.tdiv BOARD_WIDTH 2 - 1, Int.tdiv BOARD_HEIGHT 2⟩,
         ⟨Int.tdiv BOARD_WIDTH 2 - 2, Int.tdiv BOARD_HEIGHT 2⟩] := by
      simp only [initGame]
      rw [(spawnApple_fields r _).1]
      rfl
    rw [hs]
    decide
  · intro r g hnd _
    exact updateGame_preserves_nodup r g hnd

/-- Witness for C3 at `sampleState`. -/
theorem c3_snake_nodup_invariant_witness :
    sampleState.snake.Nodup ∧ sampleState.apple ∉ sampleState.snake ∧
    ((initGame (fun _ => 0) 100 30).snake).Nodup ∧
    ((updateGame (fun _ => 0) sampleState).1.snake).Nodup :=
  ⟨by decide, by decide, c3_snake_nodup_invariant.1 (fun _ => 0) 100 30,
    c3_snake_nodup_invariant.2 (fun _ => 0) sampleState (by decide) (by decide)⟩

-- ─── C6: growth and score ───────────────────────────────────

/-- C6: a non-paused step that does not end in a collision adds exactly 10
points and one cell when the new head is the apple, and changes neither
score nor length otherwise. -/
theorem c6_growth_score (r : ℕ → ℕ) (g : GameState)
    (hp : g.paused = false) (hno : (updateGame r g).1.gameOver = false) :
    (nextHead g.nextDir (g.snake.headD ⟨0, 0⟩) = g.apple →
      (updateGame r g).1.score = g.score + 10 ∧
      (updateGame r g).1.snake.length = g.snake.length + 1) ∧
    (nextHead g.nextDir (g.snake.headD ⟨0, 0⟩) ≠ g.apple →
      (updateGame r g).1.score = g.score ∧
      (updateGame r g).1.snake.length = g.snake.length) := by
  by_cases hob : ((nextHead g.nextDir (g.snake.headD ⟨0, 0⟩)).x < 0 ∨
      (nextHead g.nextDir (g.snake.headD ⟨0, 0⟩)).x ≥ g.boardWidth ∨
      (nextHead g.nextDir (g.snake.headD ⟨0, 0⟩)).y < 0 ∨
      (nextHead g.nextDir (g.snake.headD ⟨0, 0⟩)).y ≥ g.boardHeight)
  · rw [updateGame_wall r g hp hob] at hno
    simp at hno
  · by_cases hgrow : nextHead g.nextDir (g.snake.headD ⟨0, 0⟩) = g.apple
    · by_cases hmem : nextHead g.nextDir (g.snake.headD ⟨0, 0⟩) ∈
          g.snake.take g.snake.length
      · rw [updateGame_self r g hp hob (by rw [if_pos hgrow]; simpa using hmem)] at hno
        simp at hno
      · rw [updateGame_grow r g hp hob hgrow hmem]
        refine ⟨fun _ => ?_, fun hcontra => absurd hgrow hcontra⟩
        dsimp only
        split
        · rw [(spawnApple_fields r _).2.1, (spawnApple_fields r _).1]
          exact ⟨rfl, rfl⟩
        · show ((spawnApple r _).1.score = _) ∧ ((spawnApple r _).1.snake.length = _)
          rw [(spawnApple_fields r _).2.1, (spawnApple_fields r _).1]
          exact ⟨rfl, rfl⟩
    · by_cases hmem : nextHead g.nextDir (g.snake.headD ⟨0, 0⟩) ∈
          g.snake.take (g.snake.length - 1)
      · rw [updateGame_self r g hp hob (by rw [if_neg hgrow]; simpa using hmem)] at hno
        simp at hno
      · rw [updateGame_nogrow r g hp hob hgrow hmem]
        refine ⟨fun hcontra => absurd hcontra hgrow, fun _ => ⟨rfl, ?_⟩⟩
        show ((nextHead g.nextDir (g.snake.headD ⟨0, 0⟩) :: g.snake).dropLast).length =
          g.snake.length
        rw [List.length_dropLast]
        rfl

/-- Witness for C6 at `sampleState` (the spec's growth scenario: snake
[(5,5),(4,5),(3,5)] moving Right onto the apple at (6,5)). -/
theorem c6_growth_score_witness :
    sampleState.paused = false ∧
    (updateGame (fun _ => 0) sampleState).1.gameOver = false ∧
    ((nextHead sampleState.nextDir (sampleState.snake.headD ⟨0, 0⟩) = sampleState.apple →
      (updateGame (fun _ => 0) sampleState).1.score = sampleState.score + 10 ∧
      (updateGame (fun _ => 0) sampleState).1.snake.length = sampleState.snake.length + 1) ∧
     (nextHead sampleState.nextDir (sampleState.snake.headD ⟨0, 0⟩) ≠ sampleState.apple →
      (updateGame (fun _ => 0) sampleState).1.score = sampleState.score ∧
      (updateGame (fun _ => 0) sampleState).1.snake.length = sampleState.snake.length)) :=
  ⟨by decide, by decide,
    c6_growth_score (fun _ => 0) sampleState (by decide) (by decide)⟩

-- ─── C7: the tail-exclusion rule of the self-collision scan ─

/-- C7: the self-collision scan excludes the tail when not growing and
covers the full snake when growing: a non-growing in-bounds move onto the
tail cell (no other cell matching) does not collide; the same move onto a
non-tail body cell collides; a growing move onto any snake cell,
tail included, collides. -/
theorem c7_collision_scan (r : ℕ → ℕ) (g : GameState) (hp : g.paused = false)
    (hib : inBounds g.boardWidth g.boardHeight
      (nextHead g.nextDir (g.snake.headD ⟨0, 0⟩))) :
    (g.gameOver = false →
      nextHead g.nextDir (g.snake.headD ⟨0, 0⟩) ≠ g.apple →
      g.snake.getLastD ⟨0, 0⟩ = nextHead g.nextDir (g.snake.headD ⟨0, 0⟩) →
      (∀ p ∈ g.snake.dropLast, p ≠ nextHead g.nextDir (g.snake.headD ⟨0, 0⟩)) →
      (updateGame r g).1.gameOver = false ∧
      (updateGame r g).1.running = g.running) ∧
    (nextHead g.nextDir (g.snake.headD ⟨0, 0⟩) ≠ g.apple →
      nextHead g.nextDir (g.snake.headD ⟨0, 0⟩) ∈ g.snake.dropLast →
      (updateGame r g).1.gameOver = true ∧ (updateGame r g).1.running = false) ∧
    (nextHead g.nextDir (g.snake.headD ⟨0, 0⟩) = g.apple →
      nextHead g.nextDir (g.snake.headD ⟨0, 0⟩) ∈ g.snake →
      (updateGame r g).1.gameOver = true ∧ (updateGame r g).1.running = false) := by
  have hob : ¬((nextHead g.nextDir (g.snake.headD ⟨0, 0⟩)).x < 0 ∨
      (nextHead g.nextDir (g.snake.headD ⟨0, 0⟩)).x ≥ g.boardWidth ∨
      (nextHead g.nextDir (g.snake.headD ⟨0, 0⟩)).y < 0 ∨
      (nextHead g.nextDir (g.snake.headD ⟨0, 0⟩)).y ≥ g.boardHeight) := by
    obtain ⟨h1, h2, h3, h4⟩ := hib
    push_neg
    exact ⟨h1, h2, h3, h4⟩
  refine ⟨fun hg0 hng _ hoth => ?_, fun hng hmem => ?_, fun hgrow hmem => ?_⟩
  · have hmem : nextHead g.nextDir (g.snake.headD ⟨0, 0⟩) ∉
        g.snake.take (g.snake.length - 1) := by
      rw [← List.dropLast_eq_take]
      intro hc
      exact hoth _ hc rfl
    rw [updateGame_nogrow r g hp hob hng hmem]
    exact ⟨hg0, rfl⟩
  · rw [updateGame_self r g hp hob
      (by rw [if_neg hng, ← List.dropLast_eq_take]; simpa using hmem)]
    exact ⟨rfl, rfl⟩
  · rw [updateGame_self r g hp hob
      (by rw [if_pos hgrow]; rw [Nat.sub_zero, List.take_length]; simpa using hmem)]
    exact ⟨rfl, rfl⟩

/-- A tail-chase state for the C7 witness: head (5,5), body (5,6), (4,6),
tail (4,5); moving Left onto the vacating tail is legal. -/
def tailChaseState : GameState := {sampleState with
  snake := [⟨5, 5⟩, ⟨5, 6⟩, ⟨4, 6⟩, ⟨4, 5⟩]
  apple := ⟨30, 15⟩
  nextDir := Direction.LEFT}

/-- Witness for C7 at `tailChaseState`. -/
theorem c7_collision_scan_witness :
    tailChaseState.paused = false ∧
    inBounds tailChaseState.boardWidth tailChaseState.boardHeight
      (nextHead tailChaseState.nextDir (tailChaseState.snake.headD ⟨0, 0⟩)) ∧
    tailChaseState.gameOver = false ∧
    nextHead tailChaseState.nextDir (tailChaseState.snake.headD ⟨0, 0⟩) ≠
      tailChaseState.apple ∧
    tailChaseState.snake.getLastD ⟨0, 0⟩ =
      nextHead tailChaseState.nextDir (tailChaseState.snake.headD ⟨0, 0⟩) ∧
    (∀ p ∈ tailChaseState.snake.dropLast,
      p ≠ nextHead tailChaseState.nextDir (tailChaseState.snake.headD ⟨0, 0⟩)) ∧
    ((updateGame (fun _ => 0) tailChaseState).1.gameOver = false ∧
     (updateGame (fun _ => 0) tailChaseState).1.running = tailChaseState.running) :=
  ⟨by decide, by decide, by decide, by decide, by decide, by decide,
    (c7_collision_scan (fun _ => 0) tailChaseState (by decide) (by decide)).1
      (by decide) (by decide) (by decide) (by decide)⟩

-- ─── C4: no 180-degree reversal ─────────────────────────────

/-- The committed pair of direction fields never forms a reversal: the
pending direction is not the opposite of the current one. -/
def noRev (g : GameState) : Prop := isOpposite g.nextDir g.dir = false

instance (g : GameState) : Decidable (noRev g) := by
  unfold noRev
  infer_instance

theorem isOpposite_self (d : Direction) : isOpposite d d = false := by
  cases d <;> rfl

theorem tryChangeDirection_noRev (g : GameState) (d : Direction) (hg : noRev g) :
    noRev (tryChangeDirection g d) := by
  unfold noRev tryChangeDirection at *
  split_ifs with h1 h2 h3
  · exact h2
  · exact hg
  · exact hg
  · exact hg

theorem promoteQueued_noRev (g : GameState) (hg : noRev g) :
    noRev (promoteQueued g) := by
  unfold noRev promoteQueued at *
  dsimp only
  split_ifs with h1 h2
  · exact h2.1
  · exact hg
  · exact hg

theorem updateGame_dir_nextDir (r : ℕ → ℕ) (g : GameState) (hp : g.paused = false) :
    (updateGame r g).1.dir = g.nextDir ∧ (updateGame r g).1.nextDir = g.nextDir := by
  by_cases hob : ((nextHead g.nextDir (g.snake.headD ⟨0, 0⟩)).x < 0 ∨
      (nextHead g.nextDir (g.snake.headD ⟨0, 0⟩)).x ≥ g.boardWidth ∨
      (nextHead g.nextDir (g.snake.headD ⟨0, 0⟩)).y < 0 ∨
      (nextHead g.nextDir (g.snake.headD ⟨0, 0⟩)).y ≥ g.boardHeight)
  · rw [updateGame_wall r g hp hob]
    exact ⟨rfl, rfl⟩
  · by_cases hgrow : nextHead g.nextDir (g.snake.headD ⟨0, 0⟩) = g.apple
    · by_cases hmem : nextHead g.nextDir (g.snake.headD ⟨0, 0⟩) ∈
          g.snake.take g.snake.length
      · rw [updateGame_self r g hp hob (by rw [if_pos hgrow]; simpa using hmem)]
        exact ⟨rfl, rfl⟩
      · rw [updateGame_grow r g hp hob hgrow hmem]
        dsimp only
        split
        · rw [(spawnApple_fields r _).2.2.2.2.2.1, (spawnApple_fields r _).2.2.2.2.2.2.1]
          exact ⟨rfl, rfl⟩
        · show ((spawnApple r _).1.dir = _) ∧ ((spawnApple r _).1.nextDir = _)
          rw [(spawnApple_fields r _).2.2.2.2.2.1, (spawnApple_fields r _).2.2.2.2.2.2.1]
          exact ⟨rfl, rfl⟩
    · by_cases hmem : nextHead g.nextDir (g.snake.headD ⟨0, 0⟩) ∈
          g.snake.take (g.snake.length - 1)
      · rw [updateGame_self r g hp hob (by rw [if_neg hgrow]; simpa using hmem)]
        exact ⟨rfl, rfl⟩
      · rw [updateGame_nogrow r g hp hob hgrow hmem]
        exact ⟨rfl, rfl⟩

theorem updateGame_noRev (r : ℕ → ℕ) (g : GameState) (hg : noRev g) :
    noRev (updateGame r g).1 := by
  by_cases hp : g.paused = true
  · rw [updateGame_paused r g hp]
    exact hg
  · obtain ⟨h1, h2⟩ := updateGame_dir_nextDir r g (bool_eq_false_of_ne_true hp)
    unfold noRev
    rw [h1, h2]
    exact isOpposite_self g.nextDir

theorem readInput_noRev : ∀ (bytes : List Char) (g : GameState),
    noRev g → noRev (readInput g bytes)
  | [], _, hg => hg
  | c :: rest, g, hg => by
    rw [readInput.eq_def]
    dsimp only
    split_ifs with hq hr hpp hpa hesc
    · exact hg
    · exact hg
    · exact readInput_noRev rest _ hg
    · exact readInput_noRev rest _ hg
    · rcases rest with _ | ⟨s0, rest1⟩
      · exact hg
      · rcases rest1 with _ | ⟨s1, rest2⟩
        · exact hg
        · dsimp only
          split_ifs with hs0
          · cases harrow : arrowKeyDir s1 with
            | some d =>
              exact readInput_noRev rest2 _ (tryChangeDirection_noRev g d hg)
            | none => exact readInput_noRev rest2 _ hg
          · exact readInput_noRev rest2 _ hg
    · cases hl : letterKeyDir c with
      | some d => exact readInput_noRev rest _ (tryChangeDirection_noRev g d hg)
      | none => exact readInput_noRev rest _ hg
termination_by bytes => bytes.length
decreasing_by all_goals (simp only [List.length_cons]; omega)

theorem initGame_noRev (r : ℕ → ℕ) (tw th : ℤ) : noRev (initGame r tw th) := by
  unfold noRev
  have hd : (initGame r tw th).dir = Direction.RIGHT := by
    simp only [initGame]
    rw [(spawnApple_fields r _).2.2.2.2.2.1]
    rfl
  have hn : (initGame r tw th).nextDir = Direction.RIGHT := by
    simp only [initGame]
    rw [(spawnApple_fields r _).2.2.2.2.2.2.1]
    rfl
  rw [hd, hn]
  rfl

/-- C4: the committed direction never becomes the opposite of the prior
committed direction: `initGame` starts without a pending reversal;
`tryChangeDirection` (hence any input-byte sequence of a tick), the
simulation step, and the queued-direction promotion all preserve that
state; consequently after each step the new current direction is never the
opposite of the previous step's direction. -/
theorem c4_no_reversal :
    (∀ (r : ℕ → ℕ) (tw th : ℤ), noRev (initGame r tw th)) ∧
    (∀ (g : GameState) (d : Direction), noRev g → noRev (tryChangeDirection g d)) ∧
    (∀ (bytes : List Char) (g : GameState), noRev g → noRev (readInput g bytes)) ∧
    (∀ (r : ℕ → ℕ) (g : GameState), noRev g → noRev (updateGame r g).1) ∧
    (∀ (g : GameState), noRev g → noRev (promoteQueued g)) ∧
    (∀ (r : ℕ → ℕ) (g : GameState), noRev g →
      isOpposite (updateGame r g).1.dir g.dir = false) := by
  refine ⟨initGame_noRev, tryChangeDirection_noRev, readInput_noRev,
    updateGame_noRev, promoteQueued_noRev, ?_⟩
  intro r g hg
  by_cases hp : g.paused = true
  · rw [updateGame_paused r g hp]
    exact isOpposite_self g.dir
  · rw [(updateGame_dir_nextDir r g (bool_eq_false_of_ne_true hp)).1]
    exact hg

/-- Witness for C4: two opposite inputs in one tick (the spec scenario) on
`sampleState`, then a step. -/
theorem c4_no_reversal_witness :
    noRev sampleState ∧
    noRev (readInput sampleState ['w', 's']) ∧
    isOpposite (updateGame (fun _ => 0) sampleState).1.dir sampleState.dir = false :=
  ⟨by decide, c4_no_reversal.2.2.1 ['w', 's'] sampleState (by decide),
    c4_no_reversal.2.2.2.2.2 (fun _ => 0) sampleState (by decide)⟩

-- ─── C9: pause freezes game logic ───────────────────────────

theorem scoreSync_fields (g : GameState) :
    (scoreSync g).paused = g.paused ∧ (scoreSync g).frameCount = g.frameCount ∧
    (scoreSync g).appleFlashTimer = g.appleFlashTimer := by
  unfold scoreSync
  split_ifs <;> exact ⟨rfl, rfl, rfl⟩

theorem scoreSync_scoreFlash (g : GameState)
    (hle : g.scoreFlashTimer ≤ FLASH_DURATION) :
    g.scoreFlashTimer ≤ (scoreSync g).scoreFlashTimer := by
  unfold scoreSync
  split_ifs
  · exact hle
  · exact le_refl _

theorem advanceTimers_of_paused {g : GameState} (hp : g.paused = true) :
    advanceTimers g = g := by
  unfold advanceTimers
  rw [if_pos hp]

theorem readInput_paused_skips : ∀ (bytes : List Char) (g : GameState),
    g.paused = true →
    (∀ c ∈ bytes, c ∉ (['q', 'Q', 'r', 'R', 'p', 'P'] : List Char)) →
    readInput g bytes = g
  | [], _, _, _ => rfl
  | c :: rest, g, hp, hctl => by
    have hc := hctl c (List.mem_cons_self c rest)
    have hc' : ¬(c = 'q' ∨ c = 'Q') ∧ ¬(c = 'r' ∨ c = 'R') ∧ ¬(c = 'p' ∨ c = 'P') := by
      simp only [List.mem_cons, List.not_mem_nil] at hc
      tauto
    rw [readInput.eq_def]
    dsimp only
    rw [if_neg hc'.1, if_neg hc'.2.1, if_neg hc'.2.2, if_pos hp]
    exact readInput_paused_skips rest g hp
      (fun c' hmem => hctl c' (List.mem_cons_of_mem c hmem))

/-- C9: while paused, game logic is frozen: `updateGame` returns the state
unchanged; `render` neither advances the frame counter nor decrements the
flash timers; directional input bytes leave the whole state (in particular
`dir`, `nextDir`, and the queued direction) unchanged; and the quit,
restart, and pause-toggle keys stay effective. -/
theorem c9_pause_freeze :
    (∀ (r : ℕ → ℕ) (g : GameState), g.paused = true → updateGame r g = (g, 0)) ∧
    (∀ g : GameState, g.paused = true →
      (render g).1.frameCount = g.frameCount ∧
      (render g).1.appleFlashTimer = g.appleFlashTimer ∧
      (g.scoreFlashTimer ≤ FLASH_DURATION →
        g.scoreFlashTimer ≤ (render g).1.scoreFlashTimer)) ∧
    (∀ (bytes : List Char) (g : GameState), g.paused = true →
      (∀ c ∈ bytes, c ∉ (['q', 'Q', 'r', 'R', 'p', 'P'] : List Char)) →
      readInput g bytes = g) ∧
    (∀ g : GameState, g.paused = true →
      (readInput g ['q']).running = false ∧
      (readInput g ['r']).restartRequested = true ∧
      (readInput g ['r']).running = false ∧
      (readInput g ['p']).paused = !g.paused) := by
  refine ⟨updateGame_paused, ?_, readInput_paused_skips, ?_⟩
  · intro g hp
    have hp1 : (scoreSync g).paused = true := by
      rw [(scoreSync_fields g).1]
      exact hp
    have hadv : advanceTimers (scoreSync g) = scoreSync g := advanceTimers_of_paused hp1
    have h1 : (render g).1.frameCount = (advanceTimers (scoreSync g)).frameCount := rfl
    have h2 : (render g).1.appleFlashTimer =
      (advanceTimers (scoreSync g)).appleFlashTimer := rfl
    have h3 : (render g).1.scoreFlashTimer =
      (advanceTimers (scoreSync g)).scoreFlashTimer := rfl
    refine ⟨?_, ?_, fun hle => ?_⟩
    · rw [h1, hadv, (scoreSync_fields g).2.1]
    · rw [h2, hadv, (scoreSync_fields g).2.2]
    · rw [h3, hadv]
      exact scoreSync_scoreFlash g hle
  · intro g _
    exact ⟨rfl, rfl, rfl, rfl⟩

/-- A paused state for the C9 witness. -/
def pausedState : GameState := {sampleState with paused := true}

/-- Witness for C9 at `pausedState` with the directional bytes `w`, `a`. -/
theorem c9_pause_freeze_witness :
    pausedState.paused = true ∧
    (∀ c ∈ (['w', 'a'] : List Char), c ∉ (['q', 'Q', 'r', 'R', 'p', 'P'] : List Char)) ∧
    pausedState.scoreFlashTimer ≤ FLASH_DURATION ∧
    updateGame (fun _ => 0) pausedState = (pausedState, 0) ∧
    readInput pausedState ['w', 'a'] = pausedState ∧
    (render pausedState).1.frameCount = pausedState.frameCount ∧
    (readInput pausedState ['p']).paused = !pausedState.paused :=
  ⟨by decide, by decide, by decide,
    c9_pause_freeze.1 (fun _ => 0) pausedState (by decide),
    c9_pause_freeze.2.2.1 ['w', 'a'] pausedState (by decide) (by decide),
    (c9_pause_freeze.2.1 pausedState (by decide)).1,
    (c9_pause_freeze.2.2.2 pausedState (by decide)).2.2.2⟩

-- ─── C10: render is pure with respect to game logic ─────────

theorem advanceTimers_logic (g : GameState) :
    (advanceTimers g).snake = g.snake ∧ (advanceTimers g).apple = g.apple ∧
    (advanceTimers g).score = g.score ∧ (advanceTimers g).dir = g.dir ∧
    (advanceTimers g).nextDir = g.nextDir ∧
    (advanceTimers g).queuedDir = g.queuedDir ∧
    (advanceTimers g).hasQueuedDir = g.hasQueuedDir ∧
    (advanceTimers g).moveAccumulator = g.moveAccumulator ∧
    (advanceTimers g).running = g.running ∧ (advanceTimers g).gameOver = g.gameOver ∧
    (advanceTimers g).gameWon = g.gameWon ∧ (advanceTimers g).paused = g.paused := by
  unfold advanceTimers
  split_ifs <;>
    exact ⟨rfl, rfl, rfl, rfl, rfl, rfl, rfl, rfl, rfl, rfl, rfl, rfl⟩

theorem scoreSync_logic (g : GameState) :
    (scoreSync g).snake = g.snake ∧ (scoreSync g).apple = g.apple ∧
    (scoreSync g).score = g.score ∧ (scoreSync g).dir = g.dir ∧
    (scoreSync g).nextDir = g.nextDir ∧ (scoreSync g).queuedDir = g.queuedDir ∧
    (scoreSync g).hasQueuedDir = g.hasQueuedDir ∧
    (scoreSync g).moveAccumulator = g.moveAccumulator ∧
    (scoreSync g).running = g.running ∧ (scoreSync g).gameOver = g.gameOver ∧
    (scoreSync g).gameWon = g.gameWon ∧ (scoreSync g).paused = g.paused := by
  unfold scoreSync
  split_ifs <;>
    exact ⟨rfl, rfl, rfl, rfl, rfl, rfl, rfl, rfl, rfl, rfl, rfl, rfl⟩


theorem scoreSync_gridbuf (g : GameState) (gr : List Char) (rb : String) :
    scoreSync {g with grid := gr, renderBuf := rb} =
      {scoreSync g with grid := gr, renderBuf := rb} := by
  unfold scoreSync
  dsimp only
  split_ifs <;> rfl

theorem advanceTimers_gridbuf (g : GameState) (gr : List Char) (rb : String) :
    advanceTimers {g with grid := gr, renderBuf := rb} =
      {advanceTimers g with grid := gr, renderBuf := rb} := by
  unfold advanceTimers
  dsimp only
  split_ifs <;> rfl

theorem buildGrid_gridbuf (g : GameState) (gr : List Char) (rb : String) :
    buildGrid {g with grid := gr, renderBuf := rb} = buildGrid g := rfl

theorem buildBuf_gridbuf {g : GameState} {gr : List Char} {rb : String}
    {grid : List Char} {af av ab : Bool} {hp sp : ℕ} :
    buildBuf {g with grid := gr, renderBuf := rb} grid af av ab hp sp =
      buildBuf g grid af av ab hp sp := rfl

/-- C10: `render` is side-effect-free with respect to game logic: it leaves
the snake, apple, score, directions, queued direction, accumulator, and the
`running`/`gameOver`/`gameWon` flags unchanged (mutating only the frame
counter, the flash timers, `prevScore` and the `grid`/`renderBuf` scratch
buffers), and the frame it produces does not depend on the previous frame's
`grid`/`renderBuf` contents. -/
theorem c10_render_pure (g : GameState) :
    (render g).1.snake = g.snake ∧ (render g).1.apple = g.apple ∧
    (render g).1.score = g.score ∧ (render g).1.dir = g.dir ∧
    (render g).1.nextDir = g.nextDir ∧ (render g).1.queuedDir = g.queuedDir ∧
    (render g).1.hasQueuedDir = g.hasQueuedDir ∧
    (render g).1.moveAccumulator = g.moveAccumulator ∧
    (render g).1.running = g.running ∧ (render g).1.gameOver = g.gameOver ∧
    (render g).1.gameWon = g.gameWon ∧
    (∀ (gr : List Char) (rb : String),
      (render {g with grid := gr, renderBuf := rb}).2 = (render g).2) := by
  have ha := advanceTimers_logic (scoreSync g)
  have hs := scoreSync_logic g
  refine ⟨ha.1.trans hs.1, ha.2.1.trans hs.2.1, ha.2.2.1.trans hs.2.2.1,
    ha.2.2.2.1.trans hs.2.2.2.1, ha.2.2.2.2.1.trans hs.2.2.2.2.1,
    ha.2.2.2.2.2.1.trans hs.2.2.2.2.2.1,
    ha.2.2.2.2.2.2.1.trans hs.2.2.2.2.2.2.1,
    ha.2.2.2.2.2.2.2.1.trans hs.2.2.2.2.2.2.2.1,
    ha.2.2.2.2.2.2.2.2.1.trans hs.2.2.2.2.2.2.2.2.1,
    ha.2.2.2.2.2.2.2.2.2.1.trans hs.2.2.2.2.2.2.2.2.2.1,
    ha.2.2.2.2.2.2.2.2.2.2.1.trans hs.2.2.2.2.2.2.2.2.2.2.1,
    ?_⟩
  intro gr rb
  simp only [render]
  rw [scoreSync_gridbuf g gr rb, advanceTimers_gridbuf (scoreSync g) gr rb,
    buildGrid_gridbuf (advanceTimers (scoreSync g)) gr rb]
  rw [buildBuf_gridbuf]
